import Mathlib

/-!
Verification of the routing/assignment optimization engine of the
delivery-dashboard repository: `route_optimizer.py` (class `RouteOptimizer`)
and `delivery-optimizer/multi_vehicle_optimizer.py` (classes `Vehicle`, `Stop`,
`MultiVehicleOptimizer`).

Python floats are modelled as follows: coordinate arithmetic (the Haversine
formula) over `ℝ`; the `float('inf')` produced by `Stop.distance_to` for a
falsy coordinate as `Option.none`; distance-matrix entries consumed by the
tour algorithms as values of an arbitrary `LinearOrderedAddCommMonoid`
(instantiated at `ℚ` in concrete witnesses).  Python `int` is `Int`,
list indices are `ℕ`.  Code that can raise (`IndexError` on list indexing,
`KeyError` on `set.remove`, `raise ValueError`) is embedded in
`Except String`.
-/

set_option linter.unusedSectionVars false

namespace DeliveryDashboard

section Helpers

variable {β : Type} {γ : Type}

/-- In-place update of the element at position `k` (Python mutates the object
held at that position of the `vehicles` list). -/
def updateAt : List β → ℕ → (β → β) → List β
  | [], _, _ => []
  | x :: xs, 0, f => f x :: xs
  | x :: xs, n + 1, f => x :: updateAt xs n f

/-- Python's `min(l, key=key)` on a nonempty list `a :: l`: scan left to right,
replacing the candidate only on a strictly smaller key, so the first element
attaining the minimal key is returned. -/
def pyMin [LinearOrder γ] (key : β → γ) (a : β) (l : List β) : β :=
  l.foldl (fun best x => if key x < key best then x else best) a

end Helpers

section TourCore

variable {α : Type} [LinearOrderedAddCommMonoid α]

/-- Sum of the distances of consecutive edges along an open path of stop
indices (the `for i in range(len(route) - 1)` loop of `_route_distance`). -/
def pathDist (D : ℕ → ℕ → α) : List ℕ → α
  | [] => 0
  | [_] => 0
  | a :: b :: rest => D a b + pathDist D (b :: rest)

/-- `MultiVehicleOptimizer._route_distance`: closed-loop route distance, with a
guard returning 0 for the empty route. -/
def route_distance (D : ℕ → ℕ → α) : List ℕ → α
  | [] => 0
  | a :: rest => pathDist D (a :: rest) + D (rest.getLastD a) a

/-- `RouteOptimizer._route_distance` has no empty-route guard: on an empty
route, `route[-1]` raises IndexError. -/
def ro_route_distance (D : ℕ → ℕ → α) : List ℕ → Except String α
  | [] => .error "IndexError"
  | a :: rest => .ok (pathDist D (a :: rest) + D (rest.getLastD a) a)

/-- The pair of edge distances removed by the candidate 2-opt move `(i, j)`. -/
def edgeOld (D : ℕ → ℕ → α) (r : List ℕ) (i j : ℕ) : α :=
  D (r.getD (i - 1) 0) (r.getD i 0) + D (r.getD j 0) (r.getD ((j + 1) % r.length) 0)

/-- The pair of edge distances introduced by the candidate 2-opt move `(i, j)`. -/
def edgeNew (D : ℕ → ℕ → α) (r : List ℕ) (i j : ℕ) : α :=
  D (r.getD (i - 1) 0) (r.getD j 0) + D (r.getD i 0) (r.getD ((j + 1) % r.length) 0)

/-- Inner `for j in range(i + 1, len(route))` scan of 2-opt, skipping
`j - i == 1` and stopping at the first strictly improving move. -/
def findMoveRow (D : ℕ → ℕ → α) (r : List ℕ) (i : ℕ) : Option ℕ :=
  (List.range' (i + 1) (r.length - (i + 1))).find?
    (fun j => (j - i != 1) && decide (edgeNew D r i j < edgeOld D r i j))

/-- Outer `for i in range(1, len(route) - 2)` scan of 2-opt; both loops break
at the first improving move, so one full scan yields at most one move. -/
def findMove (D : ℕ → ℕ → α) (r : List ℕ) : Option (ℕ × ℕ) :=
  (List.range' 1 (r.length - 3)).findSome? (fun i => (findMoveRow D r i).map (fun j => (i, j)))

/-- `route[i:j+1] = reversed(route[i:j+1])`. -/
def applyMove (r : List ℕ) (i j : ℕ) : List ℕ :=
  r.take i ++ ((r.drop i).take (j + 1 - i)).reverse ++ r.drop (j + 1)

/-- The `while improved and iteration < max_iterations` loop shared by
`RouteOptimizer.two_opt` and `MultiVehicleOptimizer._two_opt_route`: each
iteration performs one scan and applies the first improving move it finds. -/
def twoOptLoop (D : ℕ → ℕ → α) : ℕ → List ℕ → List ℕ
  | 0, r => r
  | fuel + 1, r =>
    match findMove D r with
    | none => r
    | some (i, j) => twoOptLoop D fuel (applyMove r i j)

/-- Python's `min(unvisited, key=...)`.  CPython iterates a set of the small
ints `0..n-1` in ascending order, so `unvisited` is modelled as an ascending
list; `min` on an empty set raises, but the callers only reach it with a
nonempty set, matching the `none` branch never being taken there. -/
def selectNearest (D : ℕ → ℕ → α) (cur : ℕ) : List ℕ → Option ℕ
  | [] => none
  | a :: rest => some (pyMin (fun x => D cur x) a rest)

/-- `while unvisited:` loop of nearest neighbour; the fuel is an upper bound
on the number of iterations (each one removes the selected stop). -/
def nnLoop (D : ℕ → ℕ → α) : ℕ → ℕ → List ℕ → List ℕ
  | 0, _, _ => []
  | fuel + 1, cur, unvisited =>
    match selectNearest D cur unvisited with
    | none => []
    | some nxt => nxt :: nnLoop D fuel nxt (unvisited.erase nxt)

/-- Common body of `RouteOptimizer.nearest_neighbor` and
`MultiVehicleOptimizer._nearest_neighbor_route`:
`unvisited = set(range(n)); unvisited.remove(start)` raises KeyError when
`start` is not in the set; then greedily visit all remaining stops. -/
def nnCore (D : ℕ → ℕ → α) (n start : ℕ) : Except String (List ℕ) :=
  if start < n then .ok (start :: nnLoop D n start ((List.range n).erase start))
  else .error "KeyError"

end TourCore

/-- A delivery stop.  The `Stop` dataclasses of `route_optimizer.py` and
`multi_vehicle_optimizer.py` are identical, so one structure embeds both. -/
structure Stop where
  id : Int
  latitude : ℝ
  longitude : ℝ
  address : String
  packages : Int

instance : Inhabited Stop := ⟨⟨0, 0, 0, "", 0⟩⟩

/-- The Haversine formula of `Stop.distance_to`
(`math.radians x` is `x * π / 180`, earth radius 6371 km). -/
noncomputable def haversineKm (a b : Stop) : ℝ :=
  let lat1 := a.latitude * (Real.pi / 180)
  let lon1 := a.longitude * (Real.pi / 180)
  let lat2 := b.latitude * (Real.pi / 180)
  let lon2 := b.longitude * (Real.pi / 180)
  let dlat := lat2 - lat1
  let dlon := lon2 - lon1
  let h := Real.sin (dlat / 2) ^ 2 +
    Real.cos lat1 * Real.cos lat2 * Real.sin (dlon / 2) ^ 2
  6371 * (2 * Real.arcsin (Real.sqrt h))

/-- `Stop.distance_to`.  The guard `not all([self.latitude, ..., other.longitude])`
uses Python truthiness, so a coordinate equal to 0.0 is treated like a missing
one and the method returns `float('inf')`, modelled as `none`. -/
noncomputable def distance_to (a b : Stop) : Option ℝ :=
  if a.latitude = 0 ∨ a.longitude = 0 ∨ b.latitude = 0 ∨ b.longitude = 0 then none
  else some (haversineKm a b)

/-- `_calculate_distance_matrix` (same in both classes): the matrix starts as
`np.zeros`, and only entries with `i != j` are filled, so diagonal entries
stay 0. -/
noncomputable def calculate_distance_matrix (stops : List Stop) (i j : ℕ) : Option ℝ :=
  if i = j then some 0 else distance_to (stops.getD i default) (stops.getD j default)

/-- The `Vehicle` dataclass.  `total_distance` is a float derived from the
distance matrix, hence the value-type parameter `α`. -/
structure Vehicle (α : Type) where
  id : Int
  name : String
  capacity : Int
  current_load : Int
  routes : List ℕ
  total_distance : α
  deriving DecidableEq

namespace Vehicle

variable {α : Type} [LinearOrderedField α]

/-- `Vehicle.can_accept`. -/
def can_accept (v : Vehicle α) (p : Int) : Bool :=
  decide (v.current_load + p ≤ v.capacity)

/-- `Vehicle.add_stop`, returning the Python result together with the vehicle
after the call (Python mutates in place). -/
def add_stop (v : Vehicle α) (stop_index : ℕ) (p : Int) : Bool × Vehicle α :=
  if can_accept v p then
    (true, { v with routes := v.routes ++ [stop_index], current_load := v.current_load + p })
  else (false, v)

/-- `Vehicle.reset`. -/
def reset (v : Vehicle α) : Vehicle α :=
  { v with routes := [], current_load := 0, total_distance := 0 }

/-- `Vehicle.get_utilization`. -/
def get_utilization (v : Vehicle α) : α :=
  if 0 < v.capacity then (v.current_load : α) / (v.capacity : α) * 100 else 0

end Vehicle

/-- The per-vehicle record stored in the dict built by `_get_routes_dict`. -/
structure RouteInfo (α : Type) where
  vehicle_name : String
  route : List ℕ
  distance : α
  load : Int
  capacity : Int
  utilization : α
  stops_count : ℕ
  deriving DecidableEq

/-- The dict returned by `_get_routes_dict`.  The Python dict is keyed by
`vehicle.id`; it is modelled as the association list in vehicle order. -/
structure RoutesDict (α : Type) where
  routes : List (Int × RouteInfo α)
  total_distance : α
  unassigned_stops : List ℕ
  unassigned_count : ℕ
  deriving DecidableEq

/-- The mutable state of a `MultiVehicleOptimizer`.  `dist` is the distance
matrix computed once at construction (`optimization_time` is wall-clock data
and is not modelled). -/
structure MVState (α : Type) where
  stops : List Stop
  dist : ℕ → ℕ → α
  vehicles : List (Vehicle α)
  unassigned_stops : List ℕ
  total_distance : α

namespace MultiVehicleOptimizer

variable {α : Type} [LinearOrderedField α]

/-- `_get_routes_dict`: recomputes every vehicle's `total_distance`, sums them
into `self.total_distance` and builds the result dict. -/
def get_routes_dict (st : MVState α) : MVState α × RoutesDict α :=
  let vehicles2 := st.vehicles.map
    (fun v => { v with total_distance := route_distance st.dist v.routes })
  let total := (vehicles2.map (fun v => v.total_distance)).sum
  let infos := vehicles2.map (fun v =>
    (v.id, { vehicle_name := v.name, route := v.routes, distance := v.total_distance,
             load := v.current_load, capacity := v.capacity,
             utilization := v.get_utilization,
             stops_count := v.routes.length : RouteInfo α }))
  ({ st with vehicles := vehicles2, total_distance := total },
   { routes := infos, total_distance := total,
     unassigned_stops := st.unassigned_stops,
     unassigned_count := st.unassigned_stops.length })

/-- The order produced by `sorted(enumerate(stops), key=lambda x: x[1].packages,
reverse=True)`.  Python's sort is stable, so on the output of `enumerate`
(whose indices are strictly increasing) it coincides with sorting by the total
order: more packages first, ties by original index ascending. -/
def demandOrder (a b : ℕ × Stop) : Prop :=
  b.2.packages < a.2.packages ∨ (a.2.packages = b.2.packages ∧ a.1 ≤ b.1)

instance : DecidableRel demandOrder := fun a b => by
  unfold demandOrder; exact inferInstance

instance : IsTotal (ℕ × Stop) demandOrder := by
  constructor
  intro a b
  rcases lt_trichotomy a.2.packages b.2.packages with h | h | h
  · exact Or.inr (Or.inl h)
  · rcases Nat.le_total a.1 b.1 with h2 | h2
    · exact Or.inl (Or.inr ⟨h, h2⟩)
    · exact Or.inr (Or.inr ⟨h.symm, h2⟩)
  · exact Or.inl (Or.inl h)

instance : IsTrans (ℕ × Stop) demandOrder := by
  constructor
  intro a b c hab hbc
  rcases hab with h1 | ⟨h1, h1i⟩ <;> rcases hbc with h2 | ⟨h2, h2i⟩
  · exact Or.inl (h2.trans h1)
  · exact Or.inl (h2 ▸ h1)
  · exact Or.inl (h1 ▸ h2)
  · exact Or.inr ⟨h1.trans h2, h1i.trans h2i⟩

/-- The sorted stop list processed by `greedy_assignment`. -/
def sortedStops (stops : List Stop) : List (ℕ × Stop) :=
  List.insertionSort demandOrder stops.enum

/-- The filter `[v for v in self.vehicles if v.can_accept(stop.packages)]`,
over the position-tagged vehicle list. -/
def fits (p : Int) (iv : ℕ × Vehicle α) : Bool := iv.2.can_accept p

/-- `min(available_vehicles, key=lambda v: v.current_load)` on the list of
vehicles that can accept the stop; returns the position (in `self.vehicles`)
of the chosen vehicle, or `none` when no vehicle fits. -/
def findChosen (vs : List (Vehicle α)) (p : Int) : Option ℕ :=
  match vs.enum.filter (fits p) with
  | [] => none
  | a :: rest => some (pyMin (fun iv => iv.2.current_load) a rest).1

/-- Body of the `for stop_idx, stop in sorted_stops` loop of
`greedy_assignment`. -/
def assignStep (acc : List (Vehicle α) × List ℕ) (pair : ℕ × Stop) :
    List (Vehicle α) × List ℕ :=
  match findChosen acc.1 pair.2.packages with
  | some k => (updateAt acc.1 k (fun v => (v.add_stop pair.1 pair.2.packages).2), acc.2)
  | none => (acc.1, acc.2 ++ [pair.1])

/-- `MultiVehicleOptimizer.greedy_assignment`. -/
def greedy_assignment (st : MVState α) : MVState α × RoutesDict α :=
  let p := (sortedStops st.stops).foldl assignStep (st.vehicles.map Vehicle.reset, [])
  get_routes_dict { st with vehicles := p.1, unassigned_stops := p.2 }

/-- The cluster-selection loop of `cluster_first_assignment`: scan clusters in
order, break at the first empty one, otherwise keep the cluster with the
strictly smallest mean distance; `bestD = none` models the initial
`float('inf')`. -/
def pickClusterAux (D : ℕ → ℕ → α) (s : ℕ) :
    List (List ℕ) → ℕ → ℕ → Option α → ℕ
  | [], _, best, _ => best
  | c :: rest, idx, best, bestD =>
    if c.isEmpty then idx
    else
      let avg := (c.foldl (fun acc j => acc + D s j) 0) / (c.length : α)
      match bestD with
      | none => pickClusterAux D s rest (idx + 1) idx (some avg)
      | some b =>
        if avg < b then pickClusterAux D s rest (idx + 1) idx (some avg)
        else pickClusterAux D s rest (idx + 1) best bestD

/-- Cluster index chosen for stop `s` (`best_cluster` starts at 0). -/
def pickCluster (D : ℕ → ℕ → α) (s : ℕ) (clusters : List (List ℕ)) : ℕ :=
  pickClusterAux D s clusters 0 0 none

/-- One iteration of the clustering loop of `cluster_first_assignment`:
`clusters[best_cluster].append(stop_idx)` raises IndexError when the chosen
index is out of range (which happens exactly when the cluster list is empty,
i.e. there are no vehicles). -/
def clusterStep (D : ℕ → ℕ → α) (clusters : List (List ℕ)) (i : ℕ) :
    Except String (List (List ℕ)) :=
  let b := pickCluster D i clusters
  if b < clusters.length then .ok (updateAt clusters b (fun c => c ++ [i]))
  else .error "IndexError"

/-- The clustering phase of `cluster_first_assignment`: one empty cluster per
vehicle, then every stop index in original order goes to its chosen cluster. -/
def buildClusters (D : ℕ → ℕ → α) (n k : ℕ) : Except String (List (List ℕ)) :=
  (List.range n).foldlM (clusterStep D) (List.replicate k ([] : List ℕ))

/-- `for stop_idx in cluster:` — add each clustered stop to the vehicle, or
append it to `unassigned` when `add_stop` refuses. -/
def assignCluster (stops : List Stop) (acc : Vehicle α × List ℕ) (cluster : List ℕ) :
    Vehicle α × List ℕ :=
  cluster.foldl
    (fun acc2 idx =>
      let r := acc2.1.add_stop idx (stops.getD idx default).packages
      if r.1 then (r.2, acc2.2) else (r.2, acc2.2 ++ [idx]))
    acc

/-- `for vehicle_idx, vehicle in enumerate(self.vehicles): cluster =
clusters[vehicle_idx] ...` — the cluster list always has exactly one entry per
vehicle here, walked in lockstep. -/
def assignClusters (stops : List Stop) :
    List (Vehicle α) → List (List ℕ) → List ℕ → List (Vehicle α) × List ℕ
  | [], _, un => ([], un)
  | v :: vs, cs, un =>
    let p := assignCluster stops (v, un) (cs.headD [])
    let q := assignClusters stops vs cs.tail p.2
    (p.1 :: q.1, q.2)

/-- `MultiVehicleOptimizer.cluster_first_assignment`. -/
def cluster_first_assignment (st : MVState α) :
    Except String (MVState α × RoutesDict α) :=
  let vehicles0 := st.vehicles.map Vehicle.reset
  (buildClusters st.dist st.stops.length st.vehicles.length).map
    (fun clusters =>
      let p := assignClusters st.stops vehicles0 clusters []
      get_routes_dict { st with vehicles := p.1, unassigned_stops := p.2 })

/-- `MultiVehicleOptimizer._two_opt_route` (`max_iterations = 100`). -/
def two_opt_route (D : ℕ → ℕ → α) (r : List ℕ) : List ℕ :=
  twoOptLoop D 100 r

/-- `MultiVehicleOptimizer._nearest_neighbor_route`: a nearest-neighbour route
over all stops from the given start. -/
def nearest_neighbor_route (st : MVState α) (start : ℕ) : Except String (List ℕ) :=
  nnCore st.dist st.stops.length start

/-- Body of the `for vehicle in self.vehicles` loop of `optimize_routes`:
vehicles with fewer than 2 stops are skipped (`continue`), and a method name
other than `two_opt` and `nearest_neighbor` matches no branch, leaving the
vehicle untouched. -/
def optVehicle (st : MVState α) (method : String) (v : Vehicle α) :
    Except String (Vehicle α) :=
  if v.routes.length < 2 then pure v
  else if method = "two_opt" then
    pure { v with routes := two_opt_route st.dist v.routes }
  else if method = "nearest_neighbor" then
    (nearest_neighbor_route st (v.routes.headD 0)).map (fun r => { v with routes := r })
  else pure v

/-- The `for vehicle in self.vehicles` loop of `optimize_routes` (an exception
raised for one vehicle propagates out of the loop). -/
def optVehicles (st : MVState α) (method : String) :
    List (Vehicle α) → Except String (List (Vehicle α))
  | [] => .ok []
  | v :: vs => do
    let v2 ← optVehicle st method v
    let vs2 ← optVehicles st method vs
    pure (v2 :: vs2)

/-- `MultiVehicleOptimizer.optimize_routes`.  Note there is no `else` branch
raising on an unknown method name: the loop leaves every route untouched and
the dict is still built and returned. -/
def optimize_routes (st : MVState α) (method : String) :
    Except String (MVState α × RoutesDict α) :=
  (optVehicles st method st.vehicles).map
    (fun vehicles2 => get_routes_dict { st with vehicles := vehicles2 })

end MultiVehicleOptimizer

/-- The mutable state of a `RouteOptimizer`.  `best_distance` starts at
`float('inf')`, modelled as `none` (`optimization_time` is wall-clock data and
is not modelled). -/
structure ROState (α : Type) where
  stops : List Stop
  dist : ℕ → ℕ → α
  best_route : Option (List ℕ)
  best_distance : Option α

namespace RouteOptimizer

variable {α : Type} [LinearOrderedField α]

/-- `RouteOptimizer.nearest_neighbor` (returns the route and its closed-loop
distance). -/
def nearest_neighbor (st : ROState α) (start : ℕ) : Except String (List ℕ × α) :=
  (nnCore st.dist st.stops.length start).bind (fun route =>
    (ro_route_distance st.dist route).map (fun d => (route, d)))

/-- `RouteOptimizer.two_opt`: seed with nearest neighbour from index 0 when no
route is supplied, improve with the 2-opt loop, then recompute the distance
(which raises on an empty route). -/
def two_opt (st : ROState α) (route0 : Option (List ℕ)) (maxIter : ℕ) :
    Except String (List ℕ × α) := do
  let r ← match route0 with
    | none => (nearest_neighbor st 0).map (fun p => p.1)
    | some r => pure r
  let r2 := twoOptLoop st.dist maxIter r
  (ro_route_distance st.dist r2).map (fun d => (r2, d))

/-- `RouteOptimizer.optimize`.  The genetic branch depends on Python's global
unseeded random source; its outcome is supplied as the oracle argument
`geneticResult`.  An unknown method raises ValueError before any state field
is written, so the input state is returned unchanged alongside the error. -/
def optimize (st : ROState α) (method : String) (geneticResult : List ℕ × α) :
    Except String (List ℕ × α) × ROState α :=
  let res : Except String (List ℕ × α) :=
    if method = "nearest_neighbor" then nearest_neighbor st 0
    else if method = "two_opt" then two_opt st none 1000
    else if method = "genetic" then .ok geneticResult
    else .error ("Método desconhecido: " ++ method)
  match res with
  | .ok (r, d) => (.ok (r, d), { st with best_route := some r, best_distance := some d })
  | .error e => (.error e, st)

end RouteOptimizer

section HelperLemmas

variable {β : Type} {γ : Type} [LinearOrder γ]

theorem pyMin_cons (key : β → γ) (a x : β) (l : List β) :
    pyMin key a (x :: l) = pyMin key (if key x < key a then x else a) l := rfl

theorem pyMin_mem (key : β → γ) : ∀ (l : List β) (a : β), pyMin key a l ∈ a :: l
  | [], a => by simp [pyMin]
  | x :: l, a => by
    rw [pyMin_cons]
    have h := pyMin_mem key l (if key x < key a then x else a)
    rcases List.mem_cons.mp h with h1 | h1
    · rw [h1]
      by_cases hx : key x < key a <;> simp [hx]
    · simp [h1]

theorem pyMin_le (key : β → γ) :
    ∀ (l : List β) (a : β), ∀ y ∈ a :: l, key (pyMin key a l) ≤ key y
  | [], a => by simp [pyMin]
  | x :: l, a => by
    intro y hy
    by_cases hx : key x < key a
    · rw [pyMin_cons, if_pos hx]
      have hm := pyMin_le key l x
      have hhead : key (pyMin key x l) ≤ key x := hm x (List.mem_cons_self _ _)
      rcases List.mem_cons.mp hy with h1 | h1
      · rw [h1]; exact hhead.trans hx.le
      · exact hm y h1
    · rw [pyMin_cons, if_neg hx]
      have hm := pyMin_le key l a
      have hhead : key (pyMin key a l) ≤ key a := hm a (List.mem_cons_self _ _)
      rcases List.mem_cons.mp hy with h1 | h1
      · rw [h1]; exact hhead
      rcases List.mem_cons.mp h1 with h2 | h2
      · rw [h2]; exact hhead.trans (not_lt.mp hx)
      · exact hm y (List.mem_cons_of_mem _ h2)

theorem pyMin_first (key : β → γ) :
    ∀ (l : List β) (a : β), ∃ l1 l2, a :: l = l1 ++ pyMin key a l :: l2 ∧
      ∀ y ∈ l1, key (pyMin key a l) < key y
  | [], a => ⟨[], [], by simp [pyMin]⟩
  | x :: l, a => by
    rw [pyMin_cons]
    by_cases hx : key x < key a
    · obtain ⟨l1, l2, h1, h2⟩ := pyMin_first key l (if key x < key a then x else a)
      rw [if_pos hx] at h1 h2 ⊢
      refine ⟨a :: l1, l2, by rw [List.cons_append, ← h1], ?_⟩
      intro y hy
      rcases List.mem_cons.mp hy with h3 | h3
      · subst h3
        exact lt_of_le_of_lt (pyMin_le key l x _ (List.mem_cons_self _ _)) hx
      · exact h2 y h3
    · obtain ⟨l1, l2, h1, h2⟩ := pyMin_first key l (if key x < key a then x else a)
      rw [if_neg hx] at h1 h2 ⊢
      rcases l1 with _ | ⟨z, t⟩
      · simp only [List.nil_append] at h1
        have he : a = pyMin key a l := (List.cons_eq_cons.mp h1).1
        refine ⟨[], x :: l, ?_, by simp⟩
        rw [List.nil_append, ← he]
      · have hz : a = z := (List.cons_eq_cons.mp h1).1
        have hl : l = t ++ pyMin key a l :: l2 := (List.cons_eq_cons.mp h1).2
        have hza : key (pyMin key a l) < key a := hz ▸ h2 z (List.mem_cons_self _ _)
        refine ⟨a :: x :: t, l2, by rw [List.cons_append, List.cons_append, ← hl], ?_⟩
        intro y hy
        rcases List.mem_cons.mp hy with h3 | h3
        · rw [h3]; exact hza
        rcases List.mem_cons.mp h3 with h4 | h4
        · rw [h4]; exact lt_of_lt_of_le hza (not_lt.mp hx)
        · exact h2 y (hz ▸ List.mem_cons_of_mem _ h4)

theorem updateAt_decomp (d : β) :
    ∀ (l : List β) (k : ℕ) (f : β → β), k < l.length →
      ∃ l1 l2, l = l1 ++ l.getD k d :: l2 ∧
        updateAt l k f = l1 ++ f (l.getD k d) :: l2 ∧ l1.length = k
  | [], k, f, h => absurd h (by simp)
  | x :: xs, 0, f, _ => ⟨[], xs, by simp [updateAt, List.getD_cons_zero]⟩
  | x :: xs, k + 1, f, h => by
    obtain ⟨l1, l2, h1, h2, h3⟩ := updateAt_decomp d xs k f (by simpa using h)
    refine ⟨x :: l1, l2, ?_, ?_, by simp [h3]⟩
    · rw [List.getD_cons_succ, List.cons_append, ← h1]
    · rw [updateAt, List.getD_cons_succ, List.cons_append, ← h2]

theorem length_updateAt : ∀ (l : List β) (k : ℕ) (f : β → β),
    (updateAt l k f).length = l.length
  | [], _, _ => rfl
  | _ :: _, 0, _ => by simp [updateAt]
  | x :: xs, k + 1, f => by simp [updateAt, length_updateAt xs k f]

theorem getD_mem (l : List β) (n : ℕ) (d : β) (h : n < l.length) : l.getD n d ∈ l := by
  rw [List.getD_eq_getElem?_getD, List.getElem?_eq_getElem h, Option.getD_some]
  exact List.getElem_mem h

end HelperLemmas

namespace MultiVehicleOptimizer

variable {α : Type} [LinearOrderedField α]

instance : Inhabited (Vehicle α) := ⟨⟨0, "", 0, 0, [], 0⟩⟩

/-- Position-tagged vehicle lists have strictly increasing positions. -/
theorem enum_pairwise (l : List β) : l.enum.Pairwise (fun a b => a.1 < b.1) := by
  have h : (l.enum.map Prod.fst).Pairwise (· < ·) := by
    rw [List.enum_map_fst]
    exact List.pairwise_lt_range _
  exact (List.pairwise_map.mp h)

theorem mem_enum_getD (d : β) {l : List β} {p : ℕ × β} (h : p ∈ l.enum) :
    p.1 < l.length ∧ l.getD p.1 d = p.2 := by
  have h2 := List.mem_enum_iff_getElem?.mp h
  refine ⟨?_, ?_⟩
  · exact (List.getElem?_eq_some.mp h2).1
  · rw [List.getD_eq_getElem?_getD, h2, Option.getD_some]

/-- Characterization of `findChosen`: when it returns a position `k`, the
vehicle there fits, has minimal load among all fitting vehicles, and every
fitting vehicle at an earlier position has strictly greater load. -/
theorem findChosen_spec (vs : List (Vehicle α)) (p : Int) (k : ℕ)
    (h : findChosen vs p = some k) :
    k < vs.length ∧ (vs.getD k default).can_accept p = true ∧
      (∀ jw ∈ vs.enum, jw.2.can_accept p = true →
        (vs.getD k default).current_load ≤ jw.2.current_load) ∧
      (∀ jw ∈ vs.enum, jw.2.can_accept p = true → jw.1 < k →
        (vs.getD k default).current_load < jw.2.current_load) := by
  unfold findChosen at h
  rcases hav : vs.enum.filter (fits p) with _ | ⟨a, rest⟩
  · rw [hav] at h; exact absurd h (by simp)
  rw [hav] at h
  simp only [Option.some.injEq] at h
  set m := pyMin (fun iv => iv.2.current_load) a rest with hm
  have hmem : m ∈ vs.enum.filter (fits p) := by
    rw [hav]; exact pyMin_mem _ rest a
  have hmemE : m ∈ vs.enum := List.mem_of_mem_filter hmem
  have hfit : fits p m = true := List.of_mem_filter hmem
  obtain ⟨hk, hg⟩ := mem_enum_getD default hmemE
  rw [h] at hk
  have hgm : vs.getD k default = m.2 := by rw [← h]; exact hg
  refine ⟨hk, by rw [hgm]; exact hfit, ?_, ?_⟩
  · intro jw hjw hfj
    have hjf : jw ∈ vs.enum.filter (fits p) := List.mem_filter.mpr ⟨hjw, hfj⟩
    rw [hav] at hjf
    rw [hgm]
    exact pyMin_le (fun iv => iv.2.current_load) rest a jw hjf
  · intro jw hjw hfj hlt
    obtain ⟨l1, l2, h1, h2⟩ := pyMin_first (fun iv => iv.2.current_load) rest a
    rw [← hm] at h1 h2
    have hjf : jw ∈ vs.enum.filter (fits p) := List.mem_filter.mpr ⟨hjw, hfj⟩
    rw [hav, h1] at hjf
    have hpw : (l1 ++ m :: l2).Pairwise (fun a b : ℕ × Vehicle α => a.1 < b.1) := by
      rw [← h1, ← hav]
      exact List.Pairwise.sublist (List.filter_sublist _) (enum_pairwise vs)
    rcases List.mem_append.mp hjf with hj1 | hj2
    · rw [hgm]; exact h2 jw hj1
    · exfalso
      rcases List.mem_cons.mp hj2 with hj3 | hj3
      · rw [← h] at hlt; rw [hj3] at hlt; exact lt_irrefl _ hlt
      · have := (List.pairwise_append.mp hpw).2.1
        have hmj : m.1 < jw.1 := (List.pairwise_cons.mp this).1 jw hj3
        rw [← h] at hlt
        exact absurd (hmj.trans hlt) (lt_irrefl _)

/-- `findChosen` returns `none` exactly when no vehicle can accept the stop. -/
theorem findChosen_none (vs : List (Vehicle α)) (p : Int) :
    findChosen vs p = none ↔ ∀ jw ∈ vs.enum, jw.2.can_accept p = false := by
  unfold findChosen
  rcases hav : vs.enum.filter (fits p) with _ | ⟨a, rest⟩
  · simp only [true_iff]
    intro jw hjw
    by_contra hne
    have : jw ∈ vs.enum.filter (fits p) :=
      List.mem_filter.mpr ⟨hjw, by simpa [fits] using Bool.not_eq_false _ |>.mp hne⟩
    rw [hav] at this
    exact absurd this (List.not_mem_nil _)
  · constructor
    · intro h; exact absurd h (by simp)
    · intro hall
      exfalso
      have hmem : a ∈ vs.enum.filter (fits p) := by rw [hav]; exact List.mem_cons_self _ _
      have h1 := List.of_mem_filter hmem
      have h2 := hall a (List.mem_of_mem_filter hmem)
      simp only [fits] at h1
      rw [h2] at h1
      exact Bool.false_ne_true h1

/-- Demand (package count) of the stop with index `i`. -/
def demand (S : List Stop) (i : ℕ) : Int := (S.getD i default).packages

/-- The capacity invariant: the load equals the summed demand of the assigned
stops and does not exceed the capacity. -/
def loadInv (S : List Stop) (v : Vehicle α) : Prop :=
  v.current_load = (v.routes.map (demand S)).sum ∧ v.current_load ≤ v.capacity

theorem add_stop_of_accept (v : Vehicle α) (i : ℕ) (p : Int)
    (h : v.current_load + p ≤ v.capacity) :
    v.add_stop i p =
      (true, { v with routes := v.routes ++ [i], current_load := v.current_load + p }) := by
  unfold Vehicle.add_stop Vehicle.can_accept
  simp [h]

theorem add_stop_of_reject (v : Vehicle α) (i : ℕ) (p : Int)
    (h : ¬v.current_load + p ≤ v.capacity) :
    v.add_stop i p = (false, v) := by
  unfold Vehicle.add_stop Vehicle.can_accept
  simp [h]

theorem add_stop_loadInv (S : List Stop) (v : Vehicle α) (i : ℕ) (h : loadInv S v) :
    loadInv S (v.add_stop i (demand S i)).2 := by
  by_cases hc : v.current_load + demand S i ≤ v.capacity
  · rw [add_stop_of_accept v i _ hc]
    refine ⟨?_, hc⟩
    simp only [List.map_append, List.sum_append, List.map_cons, List.map_nil,
      List.sum_cons, List.sum_nil]
    rw [h.1]
    ring
  · rw [add_stop_of_reject v i _ hc]
    exact h

theorem reset_loadInv (S : List Stop) (v : Vehicle α) (h : 0 ≤ v.capacity) :
    loadInv S v.reset := by
  refine ⟨by simp [Vehicle.reset], ?_⟩
  simpa [Vehicle.reset] using h

theorem assignStep_loadInv (S : List Stop) (acc : List (Vehicle α) × List ℕ)
    (pr : ℕ × Stop) (hpr : pr ∈ S.enum) (h : ∀ v ∈ acc.1, loadInv S v) :
    ∀ v ∈ (assignStep acc pr).1, loadInv S v := by
  have hdem : demand S pr.1 = pr.2.packages := by
    unfold demand
    rw [(mem_enum_getD default hpr).2]
  unfold assignStep
  rcases hf : findChosen acc.1 pr.2.packages with _ | k
  · simpa using h
  obtain ⟨hk, hfit, _, _⟩ := findChosen_spec acc.1 pr.2.packages k hf
  obtain ⟨l1, l2, h1, h2, _⟩ :=
    updateAt_decomp default acc.1 k (fun v => (v.add_stop pr.1 pr.2.packages).2) hk
  simp only [h2]
  intro v hv
  have hcmem : acc.1.getD k default ∈ acc.1 := by
    have hin : acc.1.getD k default ∈ l1 ++ acc.1.getD k default :: l2 :=
      List.mem_append.mpr (Or.inr (List.mem_cons_self _ _))
    rw [← h1] at hin
    exact hin
  have hsub : ∀ w, w ∈ l1 ∨ w ∈ l2 → w ∈ acc.1 := by
    intro w hw
    have hin : w ∈ l1 ++ acc.1.getD k default :: l2 := by
      rcases hw with hw | hw
      · exact List.mem_append.mpr (Or.inl hw)
      · exact List.mem_append.mpr (Or.inr (List.mem_cons_of_mem _ hw))
    rw [← h1] at hin
    exact hin
  rcases List.mem_append.mp hv with hv1 | hv2
  · exact h v (hsub v (Or.inl hv1))
  rcases List.mem_cons.mp hv2 with hv3 | hv4
  · rw [hv3, ← hdem]
    exact add_stop_loadInv S _ pr.1 (h _ hcmem)
  · exact h v (hsub v (Or.inr hv4))

theorem foldl_assignStep_loadInv (S : List Stop) :
    ∀ (l : List (ℕ × Stop)) (acc : List (Vehicle α) × List ℕ),
      (∀ pr ∈ l, pr ∈ S.enum) → (∀ v ∈ acc.1, loadInv S v) →
      ∀ v ∈ (l.foldl assignStep acc).1, loadInv S v
  | [], acc, _, h => by simpa using h
  | pr :: l, acc, hl, h => by
    rw [List.foldl_cons]
    exact foldl_assignStep_loadInv S l _
      (fun q hq => hl q (List.mem_cons_of_mem _ hq))
      (assignStep_loadInv S acc pr (hl pr (List.mem_cons_self _ _)) h)

theorem greedy_assignment_eq (st : MVState α) :
    greedy_assignment st = get_routes_dict { st with
      vehicles := ((sortedStops st.stops).foldl assignStep (st.vehicles.map Vehicle.reset, [])).1,
      unassigned_stops :=
        ((sortedStops st.stops).foldl assignStep (st.vehicles.map Vehicle.reset, [])).2 } := rfl

theorem get_routes_dict_vehicles (st : MVState α) :
    (get_routes_dict st).1.vehicles = st.vehicles.map
      (fun v => { v with total_distance := route_distance st.dist v.routes }) := rfl

theorem get_routes_dict_unassigned (st : MVState α) :
    (get_routes_dict st).1.unassigned_stops = st.unassigned_stops := rfl

theorem get_routes_dict_dict_unassigned (st : MVState α) :
    (get_routes_dict st).2.unassigned_stops = st.unassigned_stops := rfl

theorem get_routes_dict_total (st : MVState α) :
    (get_routes_dict st).2.total_distance =
      ((get_routes_dict st).1.vehicles.map (fun v => v.total_distance)).sum := rfl

theorem get_routes_dict_total_eq (st : MVState α) :
    (get_routes_dict st).2.total_distance =
      (st.vehicles.map (fun v => route_distance st.dist v.routes)).sum := by
  rw [get_routes_dict_total, get_routes_dict_vehicles, List.map_map]
  rfl

theorem mem_sortedStops (S : List Stop) {pr : ℕ × Stop} (h : pr ∈ sortedStops S) :
    pr ∈ S.enum :=
  (List.perm_insertionSort demandOrder S.enum).subset h

/-- `greedy_assignment` establishes the capacity invariant on every vehicle
(given nonnegative capacities: a vehicle that receives no stop keeps load 0). -/
theorem greedy_loadInv (st : MVState α) (hcap : ∀ v ∈ st.vehicles, 0 ≤ v.capacity) :
    ∀ v ∈ (greedy_assignment st).1.vehicles, loadInv st.stops v := by
  rw [greedy_assignment_eq, get_routes_dict_vehicles]
  intro v hv
  obtain ⟨w, hw, hwv⟩ := List.mem_map.mp hv
  have h0 : ∀ u ∈ st.vehicles.map Vehicle.reset, loadInv st.stops u := by
    intro u hu
    obtain ⟨u0, hu0, huv⟩ := List.mem_map.mp hu
    rw [← huv]
    exact reset_loadInv _ _ (hcap u0 hu0)
  have hres := foldl_assignStep_loadInv st.stops (sortedStops st.stops) _
    (fun pr hpr => mem_sortedStops st.stops hpr) h0 w hw
  rw [← hwv]
  exact hres

/-- Number of occurrences of stop index `x` across all vehicles' routes and
the unassigned list. -/
def assignedCount (vs : List (Vehicle α)) (un : List ℕ) (x : ℕ) : ℕ :=
  ((vs.map (fun v => v.routes)).flatten ++ un).count x

theorem assignStep_count (acc : List (Vehicle α) × List ℕ) (pr : ℕ × Stop) (x : ℕ) :
    assignedCount (assignStep acc pr).1 (assignStep acc pr).2 x =
      assignedCount acc.1 acc.2 x + List.count x [pr.1] := by
  unfold assignStep
  rcases hf : findChosen acc.1 pr.2.packages with _ | k
  · simp only []
    unfold assignedCount
    simp only [List.count_append]
    omega
  obtain ⟨hk, hfit, _, _⟩ := findChosen_spec acc.1 pr.2.packages k hf
  obtain ⟨l1, l2, h1, h2, _⟩ :=
    updateAt_decomp default acc.1 k (fun v => (v.add_stop pr.1 pr.2.packages).2) hk
  have hc : (acc.1.getD k default).current_load + pr.2.packages ≤
      (acc.1.getD k default).capacity := of_decide_eq_true hfit
  simp only [h2]
  unfold assignedCount
  conv_rhs => rw [h1]
  rw [add_stop_of_accept _ _ _ hc]
  simp only [List.map_append, List.map_cons, List.flatten_append, List.flatten_cons,
    List.count_append]
  omega

theorem foldl_assignStep_count :
    ∀ (l : List (ℕ × Stop)) (acc : List (Vehicle α) × List ℕ) (x : ℕ),
      assignedCount (l.foldl assignStep acc).1 (l.foldl assignStep acc).2 x =
        assignedCount acc.1 acc.2 x + (l.map Prod.fst).count x
  | [], acc, x => by simp
  | pr :: l, acc, x => by
    rw [List.foldl_cons, foldl_assignStep_count l _ x, assignStep_count acc pr x]
    simp only [List.map_cons, List.count_cons]
    simp [List.count_cons]
    omega

theorem assignedCount_reset (vs : List (Vehicle α)) (x : ℕ) :
    assignedCount (vs.map Vehicle.reset) [] x = 0 := by
  unfold assignedCount
  induction vs with
  | nil => simp
  | cons v vs ih =>
    simp only [List.map_cons, List.flatten_cons] at ih ⊢
    simpa [Vehicle.reset] using ih

theorem assignedCount_map_distance (vs : List (Vehicle α)) (un : List ℕ) (x : ℕ)
    (f : Vehicle α → α) :
    assignedCount (vs.map (fun v => { v with total_distance := f v })) un x =
      assignedCount vs un x := by
  unfold assignedCount
  rw [List.map_map]
  rfl

/-- After `greedy_assignment`, every stop index appears exactly once across
the vehicles' routes and the unassigned list. -/
theorem greedy_partition (st : MVState α) (x : ℕ) (hx : x < st.stops.length) :
    assignedCount (greedy_assignment st).1.vehicles
      (greedy_assignment st).1.unassigned_stops x = 1 := by
  rw [greedy_assignment_eq, get_routes_dict_vehicles, get_routes_dict_unassigned]
  simp only []
  rw [assignedCount_map_distance]
  rw [foldl_assignStep_count, assignedCount_reset]
  have hperm : ((sortedStops st.stops).map Prod.fst).Perm (List.range st.stops.length) := by
    rw [← List.enum_map_fst st.stops]
    exact (List.perm_insertionSort demandOrder st.stops.enum).map Prod.fst
  rw [hperm.count_eq]
  rw [Nat.zero_add]
  exact List.count_eq_one_of_mem (List.nodup_range _) (List.mem_range.mpr hx)

theorem assignCluster_cons (S : List Stop) (acc : Vehicle α × List ℕ) (i : ℕ)
    (cl : List ℕ) :
    assignCluster S acc (i :: cl) = assignCluster S
      (if (acc.1.add_stop i (S.getD i default).packages).1 then
        ((acc.1.add_stop i (S.getD i default).packages).2, acc.2)
      else ((acc.1.add_stop i (S.getD i default).packages).2, acc.2 ++ [i])) cl := rfl

theorem assignCluster_loadInv (S : List Stop) :
    ∀ (cluster : List ℕ) (acc : Vehicle α × List ℕ), loadInv S acc.1 →
      loadInv S (assignCluster S acc cluster).1
  | [], _, h => h
  | i :: cl, acc, h => by
    rw [assignCluster_cons]
    have hstep : loadInv S (acc.1.add_stop i (S.getD i default).packages).2 :=
      add_stop_loadInv S acc.1 i h
    apply assignCluster_loadInv S cl
    by_cases hb : (acc.1.add_stop i (S.getD i default).packages).1 = true
    · rw [if_pos hb]; exact hstep
    · rw [if_neg hb]; exact hstep

theorem assignCluster_count (S : List Stop) (x : ℕ) :
    ∀ (cluster : List ℕ) (acc : Vehicle α × List ℕ),
      (assignCluster S acc cluster).1.routes.count x +
          (assignCluster S acc cluster).2.count x =
        acc.1.routes.count x + acc.2.count x + cluster.count x
  | [], acc => by simp [assignCluster]
  | i :: cl, acc => by
    rw [assignCluster_cons]
    have hrec := fun acc2 => assignCluster_count S x cl acc2
    by_cases hc : acc.1.current_load + (S.getD i default).packages ≤ acc.1.capacity
    · rw [add_stop_of_accept _ _ _ hc]
      simp only [if_pos]
      rw [hrec]
      simp only [List.count_append, List.count_cons]
      simp [List.count_cons]
      omega
    · rw [add_stop_of_reject _ _ _ hc]
      simp only [Bool.false_eq_true, if_neg, not_false_iff]
      rw [hrec]
      simp only [List.count_append, List.count_cons]
      simp [List.count_cons]
      omega

theorem assignClusters_loadInv (S : List Stop) :
    ∀ (vs : List (Vehicle α)) (cs : List (List ℕ)) (un : List ℕ),
      (∀ v ∈ vs, loadInv S v) → ∀ v ∈ (assignClusters S vs cs un).1, loadInv S v
  | [], _, _, _ => by simp [assignClusters]
  | v :: vs, cs, un, h => by
    intro w hw
    unfold assignClusters at hw
    simp only [List.mem_cons] at hw
    rcases hw with hw | hw
    · rw [hw]
      exact assignCluster_loadInv S (cs.headD []) (v, un) (h v (List.mem_cons_self _ _))
    · exact assignClusters_loadInv S vs cs.tail _
        (fun u hu => h u (List.mem_cons_of_mem _ hu)) w hw

theorem assignClusters_count (S : List Stop) (x : ℕ) :
    ∀ (vs : List (Vehicle α)) (cs : List (List ℕ)) (un : List ℕ),
      cs.length = vs.length →
      assignedCount (assignClusters S vs cs un).1 (assignClusters S vs cs un).2 x =
        assignedCount vs un x + cs.flatten.count x
  | [], cs, un, hlen => by
    rw [List.length_eq_zero.mp hlen]
    simp [assignClusters, assignedCount]
  | v :: vs, cs, un, hlen => by
    rcases cs with _ | ⟨c, cs⟩
    · exact absurd hlen (by simp)
    have hlen2 : cs.length = vs.length := by simpa using hlen
    unfold assignClusters
    simp only [List.headD_cons, List.tail_cons]
    unfold assignedCount
    simp only [List.map_cons, List.flatten_cons, List.count_append]
    have h1 : (assignCluster S (v, un) c).1.routes.count x +
        (assignCluster S (v, un) c).2.count x =
        v.routes.count x + un.count x + c.count x := assignCluster_count S x c (v, un)
    have h2 := assignClusters_count S x vs cs (assignCluster S (v, un) c).2 hlen2
    unfold assignedCount at h2
    simp only [List.count_append] at h2
    omega

theorem clusterStep_ok (D : ℕ → ℕ → α) (cs cs2 : List (List ℕ)) (i : ℕ)
    (h : clusterStep D cs i = .ok cs2) :
    cs2.length = cs.length ∧ ∀ x, cs2.flatten.count x = cs.flatten.count x + List.count x [i] := by
  unfold clusterStep at h
  by_cases hb : pickCluster D i cs < cs.length
  · rw [if_pos hb] at h
    have hcs2 : cs2 = updateAt cs (pickCluster D i cs) (fun c => c ++ [i]) := by
      cases h; rfl
    obtain ⟨l1, l2, h1, h2, _⟩ :=
      updateAt_decomp ([] : List ℕ) cs (pickCluster D i cs) (fun c => c ++ [i]) hb
    constructor
    · rw [hcs2, length_updateAt]
    · intro x
      rw [hcs2, h2]
      conv_rhs => rw [h1]
      simp only [List.flatten_append, List.flatten_cons, List.count_append]
      omega
  · rw [if_neg hb] at h
    exact absurd h (by simp)

theorem foldlM_clusterStep_ok (D : ℕ → ℕ → α) :
    ∀ (l : List ℕ) (cs cs2 : List (List ℕ)),
      l.foldlM (clusterStep D) cs = Except.ok cs2 →
      cs2.length = cs.length ∧ ∀ x, cs2.flatten.count x = cs.flatten.count x + l.count x
  | [], cs, cs2, h => by
    have : cs2 = cs := by
      simp only [List.foldlM_nil] at h
      cases h; rfl
    rw [this]
    simp
  | i :: l, cs, cs2, h => by
    rw [List.foldlM_cons] at h
    rcases hstep : clusterStep D cs i with e | cs1
    · rw [hstep] at h
      have h3 : (Except.error e : Except String (List (List ℕ))) = Except.ok cs2 := h
      exact absurd h3 (by simp)
    rw [hstep] at h
    have h2 : l.foldlM (clusterStep D) cs1 = Except.ok cs2 := h
    obtain ⟨hl1, hc1⟩ := clusterStep_ok D cs cs1 i hstep
    obtain ⟨hl2, hc2⟩ := foldlM_clusterStep_ok D l cs1 cs2 h2
    refine ⟨hl2.trans hl1, ?_⟩
    intro x
    rw [hc2, hc1]
    simp only [List.count_cons]
    simp [List.count_cons]
    omega

theorem flatten_replicate_nil (k : ℕ) :
    (List.replicate k ([] : List ℕ)).flatten = [] := by
  induction k with
  | zero => rfl
  | succ m ih => simp [List.replicate_succ, ih]

theorem cluster_first_ok (st : MVState α) (out : MVState α × RoutesDict α)
    (h : cluster_first_assignment st = .ok out) :
    ∃ clusters, buildClusters st.dist st.stops.length st.vehicles.length = .ok clusters ∧
      clusters.length = st.vehicles.length ∧
      (∀ x, x < st.stops.length → clusters.flatten.count x = 1) ∧
      out = get_routes_dict { st with
        vehicles := (assignClusters st.stops (st.vehicles.map Vehicle.reset) clusters []).1,
        unassigned_stops :=
          (assignClusters st.stops (st.vehicles.map Vehicle.reset) clusters []).2 } := by
  unfold cluster_first_assignment at h
  rcases hb : buildClusters st.dist st.stops.length st.vehicles.length with e | clusters
  · rw [hb] at h
    exact absurd h (by simp [Except.map])
  rw [hb] at h
  obtain ⟨hlen, hcount⟩ := foldlM_clusterStep_ok st.dist (List.range st.stops.length)
    (List.replicate st.vehicles.length []) clusters hb
  refine ⟨clusters, rfl, by simpa using hlen, ?_, ?_⟩
  · intro x hx
    rw [hcount x, flatten_replicate_nil]
    simp only [List.count_nil, Nat.zero_add]
    exact List.count_eq_one_of_mem (List.nodup_range _) (List.mem_range.mpr hx)
  · simp only [Except.map] at h
    cases h
    rfl

/-- `cluster_first_assignment` establishes the capacity invariant whenever it
completes normally. -/
theorem cluster_loadInv (st : MVState α) (hcap : ∀ v ∈ st.vehicles, 0 ≤ v.capacity)
    (out : MVState α × RoutesDict α) (h : cluster_first_assignment st = .ok out) :
    ∀ v ∈ out.1.vehicles, loadInv st.stops v := by
  obtain ⟨clusters, _, _, _, hout⟩ := cluster_first_ok st out h
  rw [hout, get_routes_dict_vehicles]
  intro v hv
  obtain ⟨w, hw, hwv⟩ := List.mem_map.mp hv
  have h0 : ∀ u ∈ st.vehicles.map Vehicle.reset, loadInv st.stops u := by
    intro u hu
    obtain ⟨u0, hu0, huv⟩ := List.mem_map.mp hu
    rw [← huv]
    exact reset_loadInv _ _ (hcap u0 hu0)
  have := assignClusters_loadInv st.stops (st.vehicles.map Vehicle.reset) clusters [] h0 w hw
  rw [← hwv]
  exact this

/-- When `cluster_first_assignment` completes normally, every stop index
appears exactly once across the vehicles' routes and the unassigned list. -/
theorem cluster_partition (st : MVState α) (x : ℕ) (hx : x < st.stops.length)
    (out : MVState α × RoutesDict α) (h : cluster_first_assignment st = .ok out) :
    assignedCount out.1.vehicles out.1.unassigned_stops x = 1 := by
  obtain ⟨clusters, _, hlen, hcount, hout⟩ := cluster_first_ok st out h
  rw [hout, get_routes_dict_vehicles, get_routes_dict_unassigned]
  simp only []
  rw [assignedCount_map_distance]
  rw [assignClusters_count st.stops x (st.vehicles.map Vehicle.reset) clusters []
    (by rw [hlen]; simp)]
  rw [assignedCount_reset, hcount x hx]

theorem foldl_assignStep_nil_vehicles :
    ∀ (l : List (ℕ × Stop)) (un : List ℕ),
      l.foldl assignStep (([] : List (Vehicle α)), un) = ([], un ++ l.map Prod.fst)
  | [], un => by simp
  | pr :: l, un => by
    rw [List.foldl_cons]
    have hstep : assignStep (([] : List (Vehicle α)), un) pr = ([], un ++ [pr.1]) := rfl
    rw [hstep, foldl_assignStep_nil_vehicles l (un ++ [pr.1])]
    simp

/-- `greedy_assignment` with no vehicles: zero total distance and every stop
index unassigned. -/
theorem greedy_nil_vehicles (st : MVState α) (hv : st.vehicles = []) :
    (greedy_assignment st).2.total_distance = 0 ∧
      (greedy_assignment st).2.unassigned_stops.Perm (List.range st.stops.length) := by
  rw [greedy_assignment_eq]
  rw [hv]
  simp only [List.map_nil]
  rw [foldl_assignStep_nil_vehicles]
  constructor
  · rw [get_routes_dict_total_eq]
    rfl
  · rw [get_routes_dict_dict_unassigned]
    simp only [List.nil_append]
    have hperm : ((sortedStops st.stops).map Prod.fst).Perm (List.range st.stops.length) := by
      rw [← List.enum_map_fst st.stops]
      exact (List.perm_insertionSort demandOrder st.stops.enum).map Prod.fst
    exact hperm

/-- `greedy_assignment` with no stops: zero total distance, nothing
unassigned. -/
theorem greedy_nil_stops (st : MVState α) (hs : st.stops = []) :
    (greedy_assignment st).2.total_distance = 0 ∧
      (greedy_assignment st).2.unassigned_stops = [] := by
  rw [greedy_assignment_eq]
  have hss : sortedStops st.stops = [] := by rw [hs]; rfl
  rw [hss]
  simp only [List.foldl_nil]
  constructor
  · rw [get_routes_dict_total_eq]
    apply List.sum_eq_zero
    intro y hy
    obtain ⟨v, hv, hvy⟩ := List.mem_map.mp hy
    obtain ⟨v0, _, hv0⟩ := List.mem_map.mp hv
    rw [← hvy, ← hv0]
    rfl
  · rw [get_routes_dict_dict_unassigned]

theorem buildClusters_zero_stops (D : ℕ → ℕ → α) (k : ℕ) :
    buildClusters D 0 k = .ok (List.replicate k []) := rfl

theorem buildClusters_no_vehicles (D : ℕ → ℕ → α) (n : ℕ) (hn : n ≠ 0) :
    buildClusters D n 0 = .error "IndexError" := by
  rcases n with _ | m
  · exact absurd rfl hn
  unfold buildClusters
  rw [List.range_succ_eq_map, List.foldlM_cons]
  have h1 : clusterStep D (List.replicate 0 []) 0 = .error "IndexError" := rfl
  rw [h1]
  rfl

/-- `cluster_first_assignment` raises IndexError whenever there is at least
one stop but no vehicle. -/
theorem cluster_first_no_vehicles (st : MVState α) (hv : st.vehicles = [])
    (hs : st.stops ≠ []) :
    cluster_first_assignment st = .error "IndexError" := by
  unfold cluster_first_assignment
  have hk : st.vehicles.length = 0 := by rw [hv]; rfl
  have hn : st.stops.length ≠ 0 := fun h => hs (List.length_eq_zero.mp h)
  rw [hk, buildClusters_no_vehicles st.dist _ hn]
  rfl

theorem assignClusters_replicate_nil (S : List Stop) :
    ∀ (vs : List (Vehicle α)) (un : List ℕ) (k : ℕ),
      assignClusters S vs (List.replicate k ([] : List ℕ)) un = (vs, un)
  | [], un, k => rfl
  | v :: vs, un, k => by
    unfold assignClusters
    have h1 : (List.replicate k ([] : List ℕ)).headD [] = [] := by
      cases k <;> simp [List.replicate_succ]
    have h2 : (List.replicate k ([] : List ℕ)).tail = List.replicate (k - 1) [] := by
      cases k <;> simp [List.replicate_succ]
    rw [h1, h2]
    have h3 : assignCluster S (v, un) [] = (v, un) := rfl
    simp only [h3, assignClusters_replicate_nil S vs un (k - 1)]

/-- `cluster_first_assignment` with no stops: completes normally with zero
total distance and nothing unassigned. -/
theorem cluster_first_nil_stops (st : MVState α) (hs : st.stops = []) :
    ∃ out, cluster_first_assignment st = .ok out ∧
      out.2.total_distance = 0 ∧ out.2.unassigned_stops = [] := by
  unfold cluster_first_assignment
  have h0 : st.stops.length = 0 := by rw [hs]; rfl
  rw [h0, buildClusters_zero_stops]
  have hp : assignClusters st.stops (st.vehicles.map Vehicle.reset)
      (List.replicate st.vehicles.length ([] : List ℕ)) [] =
      (st.vehicles.map Vehicle.reset, []) := assignClusters_replicate_nil _ _ _ _
  refine ⟨_, rfl, ?_, ?_⟩
  · show (get_routes_dict { st with
        vehicles := (assignClusters st.stops (st.vehicles.map Vehicle.reset)
          (List.replicate st.vehicles.length []) []).1,
        unassigned_stops := (assignClusters st.stops (st.vehicles.map Vehicle.reset)
          (List.replicate st.vehicles.length []) []).2 }).2.total_distance = 0
    rw [get_routes_dict_total_eq]
    apply List.sum_eq_zero
    intro y hy
    obtain ⟨v, hv, hvy⟩ := List.mem_map.mp hy
    rw [hp] at hv
    obtain ⟨v0, _, hv0⟩ := List.mem_map.mp hv
    rw [← hvy, ← hv0]
    rfl
  · show (get_routes_dict { st with
        vehicles := (assignClusters st.stops (st.vehicles.map Vehicle.reset)
          (List.replicate st.vehicles.length []) []).1,
        unassigned_stops := (assignClusters st.stops (st.vehicles.map Vehicle.reset)
          (List.replicate st.vehicles.length []) []).2 }).2.unassigned_stops = []
    rw [get_routes_dict_dict_unassigned]
    rw [hp]

theorem optVehicle_unknown (st : MVState α) (method : String) (v : Vehicle α)
    (h1 : method ≠ "two_opt") (h2 : method ≠ "nearest_neighbor") :
    optVehicle st method v = .ok v := by
  unfold optVehicle
  by_cases hl : v.routes.length < 2
  · rw [if_pos hl]; rfl
  · rw [if_neg hl, if_neg h1, if_neg h2]; rfl

theorem optVehicles_unknown (st : MVState α) (method : String)
    (h1 : method ≠ "two_opt") (h2 : method ≠ "nearest_neighbor") :
    ∀ vs : List (Vehicle α), optVehicles st method vs = .ok vs
  | [] => rfl
  | v :: vs => by
    unfold optVehicles
    rw [optVehicle_unknown st method v h1 h2, optVehicles_unknown st method h1 h2 vs]
    rfl

/-- An unknown method name is silently accepted by `optimize_routes`: the call
returns normally and every vehicle keeps its route list. -/
theorem optimize_routes_unknown (st : MVState α) (method : String)
    (h1 : method ≠ "two_opt") (h2 : method ≠ "nearest_neighbor") :
    optimize_routes st method = .ok (get_routes_dict st) ∧
      (∀ out, optimize_routes st method = .ok out →
        out.1.vehicles.map (fun v => v.routes) = st.vehicles.map (fun v => v.routes)) := by
  have hok : optimize_routes st method = .ok (get_routes_dict st) := by
    unfold optimize_routes
    rw [optVehicles_unknown st method h1 h2]
    rfl
  refine ⟨hok, ?_⟩
  intro out hout
  rw [hok] at hout
  have : get_routes_dict st = out := by cases hout; rfl
  rw [← this, get_routes_dict_vehicles, List.map_map]
  rfl

theorem optVehicles_ok (st : MVState α) (method : String) :
    ∀ (vs vs2 : List (Vehicle α)), optVehicles st method vs = .ok vs2 →
      vs2.length = vs.length ∧ ∀ k, k < vs.length →
        optVehicle st method (vs.getD k default) = .ok (vs2.getD k default)
  | [], vs2, h => by
    have : vs2 = [] := by cases h; rfl
    rw [this]
    exact ⟨rfl, fun k hk => absurd hk (by simp)⟩
  | v :: vs, vs2, h => by
    unfold optVehicles at h
    rcases hv : optVehicle st method v with e | v2
    · rw [hv] at h
      have h3 : (Except.error e : Except String (List (Vehicle α))) = Except.ok vs2 := h
      exact absurd h3 (by simp)
    rw [hv] at h
    rcases hvs : optVehicles st method vs with e | vs3
    · rw [hvs] at h
      have h3 : (Except.error e : Except String (List (Vehicle α))) = Except.ok vs2 := h
      exact absurd h3 (by simp)
    rw [hvs] at h
    have hv2 : vs2 = v2 :: vs3 := by
      have h3 : (Except.ok (v2 :: vs3) : Except String (List (Vehicle α))) = Except.ok vs2 := h
      cases h3; rfl
    obtain ⟨hlen, hpt⟩ := optVehicles_ok st method vs vs3 hvs
    rw [hv2]
    refine ⟨by simp [hlen], ?_⟩
    intro k hk
    rcases k with _ | k
    · simpa using hv
    · simpa using hpt k (by simpa using hk)

/-- A vehicle with fewer than 2 stops is skipped by `optimize_routes`: its
route survives unchanged, and (over a matrix with zero diagonal) its stored
route distance is 0. -/
theorem optimize_routes_short (st : MVState α) (method : String)
    (hdiag : ∀ i, st.dist i i = 0)
    (out : MVState α × RoutesDict α) (h : optimize_routes st method = .ok out)
    (k : ℕ) (hk : k < st.vehicles.length)
    (hshort : (st.vehicles.getD k default).routes.length < 2) :
    (out.1.vehicles.getD k default).routes = (st.vehicles.getD k default).routes ∧
      (out.1.vehicles.getD k default).total_distance = 0 := by
  unfold optimize_routes at h
  rcases hov : optVehicles st method st.vehicles with e | vs2
  · rw [hov] at h
    exact absurd h (by simp [Except.map])
  rw [hov] at h
  have hout : out = get_routes_dict { st with vehicles := vs2 } := by
    simp only [Except.map] at h
    cases h
    rfl
  obtain ⟨hlen, hpt⟩ := optVehicles_ok st method st.vehicles vs2 hov
  have hvk : optVehicle st method (st.vehicles.getD k default) =
      .ok (vs2.getD k default) := hpt k hk
  have hsame : vs2.getD k default = st.vehicles.getD k default := by
    unfold optVehicle at hvk
    rw [if_pos hshort] at hvk
    have h3 : (Except.ok (st.vehicles.getD k default) :
        Except String (Vehicle α)) = Except.ok (vs2.getD k default) := hvk
    exact (Except.ok.inj h3).symm
  have hkv : k < vs2.length := by rw [hlen]; exact hk
  rw [hout, get_routes_dict_vehicles]
  have hmap :
      (List.map (fun v => { v with total_distance := route_distance st.dist v.routes })
          vs2).getD k default =
        { (vs2.getD k default) with
          total_distance := route_distance st.dist (vs2.getD k default).routes } := by
    rw [List.getD_eq_getElem?_getD, List.getElem?_map]
    rw [List.getElem?_eq_getElem hkv]
    simp only [Option.map_some', Option.getD_some]
    rw [List.getD_eq_getElem?_getD, List.getElem?_eq_getElem hkv]
    rfl
  rw [hmap, hsame]
  refine ⟨rfl, ?_⟩
  rcases hr : (st.vehicles.getD k default).routes with _ | ⟨x, rest⟩
  · rfl
  · rcases rest with _ | ⟨y, rest2⟩
    · show pathDist st.dist [x] + st.dist (([] : List ℕ).getLastD x) x = 0
      simp [pathDist, hdiag x]
    · rw [hr] at hshort
      simp only [List.length_cons] at hshort
      omega

end MultiVehicleOptimizer

section TwoOptLemmas

variable {β : Type} {α : Type} [LinearOrderedAddCommMonoid α]

theorem headD_eq_getD (l : List ℕ) (d : ℕ) : l.headD d = l.getD 0 d := by
  cases l <;> rfl

theorem getLastD_eq_getD (l : List ℕ) (d : ℕ) : l.getLastD d = l.getD (l.length - 1) d := by
  rw [List.getLastD_eq_getLast?, List.getLast?_eq_getElem?, List.getD_eq_getElem?_getD]

theorem headD_append_left (l1 l2 : List ℕ) (d : ℕ) (h : l1 ≠ []) :
    (l1 ++ l2).headD d = l1.headD d := by
  rcases l1 with _ | ⟨a, t⟩
  · exact absurd rfl h
  · rfl

theorem getLastD_append_right (l1 l2 : List ℕ) (d : ℕ) (h : l2 ≠ []) :
    (l1 ++ l2).getLastD d = l2.getLastD d := by
  rw [List.getLastD_eq_getLast?, List.getLastD_eq_getLast?, List.getLast?_append]
  rcases hl : l2.getLast? with _ | a
  · exact absurd (List.getLast?_eq_none_iff.mp hl) h
  · rfl

theorem getLastD_reverse (l : List ℕ) (d : ℕ) : l.reverse.getLastD d = l.headD d := by
  rw [List.getLastD_eq_getLast?, List.getLast?_reverse]
  cases l <;> rfl

theorem headD_reverse (l : List ℕ) (d : ℕ) : l.reverse.headD d = l.getLastD d := by
  rw [List.getLastD_eq_getLast?, ← List.head?_reverse]
  cases l.reverse <;> rfl

theorem pathDist_append (D : ℕ → ℕ → α) :
    ∀ (l1 l2 : List ℕ), l1 ≠ [] → l2 ≠ [] →
      pathDist D (l1 ++ l2) =
        pathDist D l1 + D (l1.getLastD 0) (l2.headD 0) + pathDist D l2
  | [], _, h1, _ => absurd rfl h1
  | [a], l2, _, h2 => by
    rcases l2 with _ | ⟨b, t⟩
    · exact absurd rfl h2
    · show D a b + pathDist D (b :: t) = 0 + D a b + pathDist D (b :: t)
      rw [zero_add]
  | a :: b :: t, l2, _, h2 => by
    have ih := pathDist_append D (b :: t) l2 (by simp) h2
    show D a b + pathDist D ((b :: t) ++ l2) =
      pathDist D (a :: b :: t) + D ((a :: b :: t).getLastD 0) (l2.headD 0) + pathDist D l2
    rw [ih]
    have e2 : pathDist D (a :: b :: t) = D a b + pathDist D (b :: t) := rfl
    have e3 : (a :: b :: t).getLastD 0 = (b :: t).getLastD 0 := by
      simp [List.getLastD_cons]
    rw [e2, e3]
    abel

theorem pathDist_reverse (D : ℕ → ℕ → α) (hsym : ∀ i j, D i j = D j i) :
    ∀ l : List ℕ, pathDist D l.reverse = pathDist D l
  | [] => rfl
  | [_] => rfl
  | a :: b :: t => by
    have ih := pathDist_reverse D hsym (b :: t)
    have e1 : (a :: b :: t).reverse = (b :: t).reverse ++ [a] := by simp
    rw [e1, pathDist_append D ((b :: t).reverse) [a] (by simp) (by simp)]
    rw [ih, getLastD_reverse]
    show pathDist D (b :: t) + D ((b :: t).headD 0) a + 0 = pathDist D (a :: b :: t)
    rw [add_zero, List.headD_cons, hsym b a]
    show pathDist D (b :: t) + D a b = D a b + pathDist D (b :: t)
    abel

theorem route_distance_eq (D : ℕ → ℕ → α) (l : List ℕ) (h : l ≠ []) :
    route_distance D l = pathDist D l + D (l.getLastD 0) (l.headD 0) := by
  rcases l with _ | ⟨a, rest⟩
  · exact absurd rfl h
  · show pathDist D (a :: rest) + D (rest.getLastD a) a = _
    rw [List.headD_cons, List.getLastD_cons]

theorem route_distance_split2 (D : ℕ → ℕ → α) (A B : List ℕ) (hA : A ≠ []) (hB : B ≠ []) :
    route_distance D (A ++ B) = (pathDist D A + pathDist D B) +
      (D (A.getLastD 0) (B.headD 0) + D (B.getLastD 0) (A.headD 0)) := by
  rw [route_distance_eq D _ (by simp [hA]), pathDist_append D A B hA hB,
    getLastD_append_right A B 0 hB, headD_append_left A B 0 hA]
  abel

theorem route_distance_split3 (D : ℕ → ℕ → α) (A B C : List ℕ)
    (hA : A ≠ []) (hB : B ≠ []) (hC : C ≠ []) :
    route_distance D (A ++ B ++ C) =
      (pathDist D A + pathDist D B + pathDist D C + D (C.getLastD 0) (A.headD 0)) +
      (D (A.getLastD 0) (B.headD 0) + D (B.getLastD 0) (C.headD 0)) := by
  rw [List.append_assoc]
  rw [route_distance_eq D _ (by simp [hA]),
    pathDist_append D A (B ++ C) hA (by simp [hB]),
    pathDist_append D B C hB hC,
    headD_append_left B C 0 hB,
    getLastD_append_right A (B ++ C) 0 (by simp [hC]),
    getLastD_append_right B C 0 hC,
    headD_append_left A (B ++ C) 0 hA]
  abel

/-- The 2-opt exchange: reversing the middle segment of a closed tour does
not increase its length when the new edge pair is no longer than the old
one (all interior edges are preserved thanks to matrix symmetry). -/
theorem move_le (D : ℕ → ℕ → α) (hsym : ∀ i j, D i j = D j i) (A B C : List ℕ)
    (hA : A ≠ []) (hB : B ≠ [])
    (h : D (A.getLastD 0) (B.getLastD 0) + D (B.headD 0) ((C ++ A).headD 0) ≤
         D (A.getLastD 0) (B.headD 0) + D (B.getLastD 0) ((C ++ A).headD 0)) :
    route_distance D (A ++ B.reverse ++ C) ≤ route_distance D (A ++ B ++ C) := by
  have hBrev : B.reverse ≠ [] := by simpa [List.reverse_eq_nil_iff] using hB
  rcases C with _ | ⟨c, cs⟩
  · simp only [List.append_nil] at h ⊢
    rw [List.nil_append] at h
    rw [route_distance_split2 D A B.reverse hA hBrev, route_distance_split2 D A B hA hB]
    rw [pathDist_reverse D hsym, getLastD_reverse, headD_reverse]
    exact add_le_add_left h _
  · have hC : (c :: cs) ≠ [] := by simp
    rw [route_distance_split3 D A B.reverse (c :: cs) hA hBrev hC,
      route_distance_split3 D A B (c :: cs) hA hB hC]
    rw [pathDist_reverse D hsym, getLastD_reverse, headD_reverse]
    apply add_le_add_left
    rw [headD_append_left (c :: cs) A 0 hC] at h
    exact h

theorem findSome?_some {γ2 : Type} {f : β → Option γ2} :
    ∀ {l : List β} {b : γ2}, l.findSome? f = some b → ∃ a ∈ l, f a = some b
  | [], b, h => by simp at h
  | x :: l, b, h => by
    rw [List.findSome?_cons] at h
    rcases hx : f x with _ | y
    · simp only [hx] at h
      obtain ⟨a, ha, hfa⟩ := findSome?_some h
      exact ⟨a, List.mem_cons_of_mem _ ha, hfa⟩
    · simp only [hx] at h
      exact ⟨x, List.mem_cons_self _ _, by rw [hx]; exact h⟩

theorem findMove_spec (D : ℕ → ℕ → α) (r : List ℕ) (i j : ℕ)
    (h : findMove D r = some (i, j)) :
    1 ≤ i ∧ i + 2 ≤ j ∧ j < r.length ∧ edgeNew D r i j < edgeOld D r i j := by
  unfold findMove at h
  obtain ⟨i2, hi2, hf⟩ := findSome?_some h
  rcases hrow : findMoveRow D r i2 with _ | j2
  · rw [hrow] at hf; simp at hf
  rw [hrow] at hf
  simp only [Option.map_some', Option.some.injEq, Prod.mk.injEq] at hf
  obtain ⟨hie, hje⟩ := hf
  subst hie
  subst hje
  unfold findMoveRow at hrow
  have hmem := List.mem_of_find?_eq_some hrow
  have hpred := List.find?_some hrow
  rw [List.mem_range'] at hmem hi2
  obtain ⟨t, ht, hjt⟩ := hmem
  obtain ⟨s, _, his⟩ := hi2
  simp only [Bool.and_eq_true, bne_iff_ne, ne_eq, decide_eq_true_eq] at hpred
  exact ⟨by omega, by omega, by omega, hpred.2⟩

theorem applyMove_eq (r : List ℕ) (i j : ℕ) :
    applyMove r i j = r.take i ++ ((r.drop i).take (j + 1 - i)).reverse ++ r.drop (j + 1) := rfl

theorem applyMove_le (D : ℕ → ℕ → α) (hsym : ∀ i j, D i j = D j i) (r : List ℕ) (i j : ℕ)
    (h1 : 1 ≤ i) (h2 : i + 2 ≤ j) (h3 : j < r.length)
    (himp : edgeNew D r i j ≤ edgeOld D r i j) :
    route_distance D (applyMove r i j) ≤ route_distance D r := by
  have hAlen : (r.take i).length = i := by simp [List.length_take]; omega
  have hBlen : ((r.drop i).take (j + 1 - i)).length = j + 1 - i := by
    simp [List.length_take, List.length_drop]; omega
  have hA : r.take i ≠ [] := List.ne_nil_of_length_pos (by omega)
  have hB : (r.drop i).take (j + 1 - i) ≠ [] := List.ne_nil_of_length_pos (by omega)
  have hr : r.take i ++ ((r.drop i).take (j + 1 - i) ++ r.drop (j + 1)) = r := by
    have hd : r.drop (j + 1) = ((r.drop i).drop (j + 1 - i)) := by
      rw [List.drop_drop]
      congr 1
      omega
    rw [hd, List.take_append_drop, List.take_append_drop]
  have hAlast : (r.take i).getLastD 0 = r.getD (i - 1) 0 := by
    rw [getLastD_eq_getD, hAlen, List.getD_eq_getElem?_getD, List.getD_eq_getElem?_getD,
      List.getElem?_take, if_pos (by omega : i - 1 < i)]
  have hBhead : ((r.drop i).take (j + 1 - i)).headD 0 = r.getD i 0 := by
    rw [headD_eq_getD, List.getD_eq_getElem?_getD, List.getD_eq_getElem?_getD,
      List.getElem?_take, if_pos (by omega : 0 < j + 1 - i), List.getElem?_drop,
      Nat.add_zero]
  have hBlast : ((r.drop i).take (j + 1 - i)).getLastD 0 = r.getD j 0 := by
    rw [getLastD_eq_getD, hBlen, List.getD_eq_getElem?_getD, List.getD_eq_getElem?_getD,
      show j + 1 - i - 1 = j - i by omega,
      List.getElem?_take, if_pos (by omega : j - i < j + 1 - i), List.getElem?_drop,
      show i + (j - i) = j by omega]
  have hCA : (r.drop (j + 1) ++ r.take i).headD 0 = r.getD ((j + 1) % r.length) 0 := by
    by_cases hjn : j + 1 < r.length
    · have hC : r.drop (j + 1) ≠ [] :=
        List.ne_nil_of_length_pos (by simp [List.length_drop]; omega)
      rw [headD_append_left _ _ 0 hC, headD_eq_getD, List.getD_eq_getElem?_getD,
        List.getD_eq_getElem?_getD, List.getElem?_drop, Nat.mod_eq_of_lt hjn,
        Nat.add_zero]
    · have hjn2 : j + 1 = r.length := by omega
      have hC : r.drop (j + 1) = [] := by rw [hjn2]; exact List.drop_length r
      rw [hC, List.nil_append, headD_eq_getD, List.getD_eq_getElem?_getD,
        List.getD_eq_getElem?_getD, List.getElem?_take, if_pos (by omega : 0 < i),
        hjn2, Nat.mod_self]
  have hpair := move_le D hsym (r.take i) ((r.drop i).take (j + 1 - i)) (r.drop (j + 1))
    hA hB (by rw [hAlast, hBlast, hBhead, hCA]; exact himp)
  rw [applyMove_eq]
  refine le_trans hpair ?_
  rw [List.append_assoc, hr]

theorem twoOptLoop_le (D : ℕ → ℕ → α) (hsym : ∀ i j, D i j = D j i) :
    ∀ (fuel : ℕ) (r : List ℕ),
      route_distance D (twoOptLoop D fuel r) ≤ route_distance D r
  | 0, r => le_refl _
  | fuel + 1, r => by
    unfold twoOptLoop
    rcases hm : findMove D r with _ | ⟨i, j⟩
    · exact le_refl _
    obtain ⟨h1, h2, h3, h4⟩ := findMove_spec D r i j hm
    exact le_trans (twoOptLoop_le D hsym fuel _) (applyMove_le D hsym r i j h1 h2 h3 h4.le)

theorem findMove_short (D : ℕ → ℕ → α) (r : List ℕ) (h : r.length < 4) :
    findMove D r = none := by
  unfold findMove
  rw [show r.length - 3 = 0 by omega]
  rfl

theorem twoOptLoop_short (D : ℕ → ℕ → α) (r : List ℕ) (h : r.length < 4) :
    ∀ fuel : ℕ, twoOptLoop D fuel r = r
  | 0 => rfl
  | fuel + 1 => by
    unfold twoOptLoop
    rw [findMove_short D r h]

theorem length_applyMove (r : List ℕ) (i j : ℕ) (h2 : i + 2 ≤ j) (h3 : j < r.length) :
    (applyMove r i j).length = r.length := by
  rw [applyMove_eq]
  simp only [List.length_append, List.length_reverse, List.length_take, List.length_drop]
  rw [Nat.min_eq_left (by omega : i ≤ r.length),
    Nat.min_eq_left (by omega : j + 1 - i ≤ r.length - i)]
  omega

theorem length_twoOptLoop (D : ℕ → ℕ → α) :
    ∀ (fuel : ℕ) (r : List ℕ), (twoOptLoop D fuel r).length = r.length
  | 0, _ => rfl
  | fuel + 1, r => by
    unfold twoOptLoop
    rcases hm : findMove D r with _ | ⟨i, j⟩
    · rfl
    obtain ⟨_, h2, h3, _⟩ := findMove_spec D r i j hm
    rw [length_twoOptLoop D fuel _, length_applyMove r i j h2 h3]

theorem ro_route_distance_eq (D : ℕ → ℕ → α) (l : List ℕ) (h : l ≠ []) :
    ro_route_distance D l = .ok (route_distance D l) := by
  rcases l with _ | ⟨a, rest⟩
  · exact absurd rfl h
  · rfl

end TwoOptLemmas

section HaversineLemmas

theorem haversineKm_comm (a b : Stop) : haversineKm a b = haversineKm b a := by
  have hs : ∀ x y : ℝ, Real.sin ((x - y) / 2) ^ 2 = Real.sin ((y - x) / 2) ^ 2 := by
    intro x y
    rw [show (x - y) / 2 = -((y - x) / 2) by ring, Real.sin_neg]
    ring
  simp only [haversineKm]
  rw [hs (a.latitude * (Real.pi / 180)) (b.latitude * (Real.pi / 180)),
    hs (a.longitude * (Real.pi / 180)) (b.longitude * (Real.pi / 180)),
    mul_comm (Real.cos (b.latitude * (Real.pi / 180))) (Real.cos (a.latitude * (Real.pi / 180)))]

theorem haversineKm_self (a : Stop) : haversineKm a a = 0 := by
  simp only [haversineKm, sub_self, zero_div, Real.sin_zero]
  norm_num [Real.sqrt_zero, Real.arcsin_zero]

/-- `Stop.distance_to` is symmetric (the truthiness guard is symmetric in the
two stops, and the Haversine formula is symmetric). -/
theorem distance_to_comm (a b : Stop) : distance_to a b = distance_to b a := by
  unfold distance_to
  by_cases h : a.latitude = 0 ∨ a.longitude = 0 ∨ b.latitude = 0 ∨ b.longitude = 0
  · rw [if_pos h, if_pos (by tauto)]
  · rw [if_neg h, if_neg (by tauto), haversineKm_comm]

/-- `distance_to a a = 0` requires nonzero coordinates: a zero coordinate
trips the truthiness guard and forces `float('inf')`. -/
theorem distance_to_self (a : Stop) (h1 : a.latitude ≠ 0) (h2 : a.longitude ≠ 0) :
    distance_to a a = some 0 := by
  unfold distance_to
  rw [if_neg (by tauto), haversineKm_self]

theorem calculate_distance_matrix_symm (stops : List Stop) (i j : ℕ) :
    calculate_distance_matrix stops i j = calculate_distance_matrix stops j i := by
  unfold calculate_distance_matrix
  by_cases h : i = j
  · rw [h]
  · rw [if_neg h, if_neg (fun hh => h hh.symm), distance_to_comm]

theorem calculate_distance_matrix_diag (stops : List Stop) (i : ℕ) :
    calculate_distance_matrix stops i i = some 0 := by
  unfold calculate_distance_matrix
  rw [if_pos rfl]

end HaversineLemmas

namespace RouteOptimizer

variable {α : Type} [LinearOrderedField α]

/-- `RouteOptimizer.optimize` raises ValueError on an unknown method name,
before any state field is written. -/
theorem optimize_unknown (st : ROState α) (g : List ℕ × α) (m : String)
    (h1 : m ≠ "nearest_neighbor") (h2 : m ≠ "two_opt") (h3 : m ≠ "genetic") :
    optimize st m g = (.error ("Método desconhecido: " ++ m), st) := by
  unfold optimize
  rw [if_neg h1, if_neg h2, if_neg h3]

theorem two_opt_some (st : ROState α) (r : List ℕ) (maxIter : ℕ) (h : r ≠ []) :
    two_opt st (some r) maxIter =
      .ok (twoOptLoop st.dist maxIter r,
        route_distance st.dist (twoOptLoop st.dist maxIter r)) := by
  have he : two_opt st (some r) maxIter =
      (ro_route_distance st.dist (twoOptLoop st.dist maxIter r)).map
        (fun d => (twoOptLoop st.dist maxIter r, d)) := rfl
  have hne : twoOptLoop st.dist maxIter r ≠ [] := by
    apply List.ne_nil_of_length_pos
    rw [length_twoOptLoop]
    rcases r with _ | ⟨a, t⟩
    · exact absurd rfl h
    · simp
  rw [he, ro_route_distance_eq st.dist _ hne]
  rfl

/-- `RouteOptimizer.two_opt` on an explicitly supplied empty tour raises
IndexError inside `_route_distance` (`route[-1]` on an empty list). -/
theorem two_opt_nil (st : ROState α) (maxIter : ℕ) :
    two_opt st (some []) maxIter = .error "IndexError" := by
  have he : two_opt st (some []) maxIter =
      (ro_route_distance st.dist (twoOptLoop st.dist maxIter [])).map
        (fun d => (twoOptLoop st.dist maxIter [], d)) := rfl
  rw [he, twoOptLoop_short st.dist [] (by simp) maxIter]
  rfl

/-- `RouteOptimizer.two_opt` on a one-stop tour returns it unchanged with
distance `D x x`, which is 0 over a matrix with zero diagonal. -/
theorem two_opt_single (st : ROState α) (x : ℕ) (maxIter : ℕ)
    (hdiag : ∀ i, st.dist i i = 0) :
    two_opt st (some [x]) maxIter = .ok ([x], 0) := by
  rw [two_opt_some st [x] maxIter (by simp), twoOptLoop_short st.dist [x] (by simp) maxIter]
  have hz : route_distance st.dist [x] = 0 := by
    show pathDist st.dist [x] + st.dist (([] : List ℕ).getLastD x) x = 0
    simp [pathDist, hdiag x]
  rw [hz]

end RouteOptimizer

namespace MultiVehicleOptimizer

variable {α : Type} [LinearOrderedField α]

theorem two_opt_route_short (D : ℕ → ℕ → α) (r : List ℕ) (h : r.length < 2) :
    two_opt_route D r = r :=
  twoOptLoop_short D r (by omega) 100

end MultiVehicleOptimizer

section Fixtures

open MultiVehicleOptimizer RouteOptimizer

def wStopA : Stop := ⟨0, 1, 1, "Rua A", 4⟩

def wStopB : Stop := ⟨1, 1, 2, "Rua B", 4⟩

def wDistZero : ℕ → ℕ → ℚ := fun _ _ => 0

def wVehicle : Vehicle ℚ := ⟨7, "van", 10, 0, [], 0⟩

def wVehicle5 : Vehicle ℚ := ⟨5, "v5", 10, 0, [], 0⟩

def wVehicle1 : Vehicle ℚ := ⟨1, "v1", 10, 0, [], 0⟩

def wState : MVState ℚ := ⟨[wStopA, wStopB], wDistZero, [wVehicle], [], 0⟩

def wStateTie : MVState ℚ := ⟨[⟨0, 1, 1, "Rua C", 1⟩], wDistZero, [wVehicle5, wVehicle1], [], 0⟩

def wStateNoVehicles : MVState ℚ := ⟨[wStopA, wStopB], wDistZero, [], [], 0⟩

def wStateNoStops : MVState ℚ := ⟨[], wDistZero, [wVehicle], [], 0⟩

def wStateOneStop : MVState ℚ := ⟨[wStopA], wDistZero, [], [], 0⟩

def wROState : ROState ℚ := ⟨[wStopA, wStopB], wDistZero, none, none⟩

def wXCoord : ℕ → ℚ := fun i => [0, 3, 1, 2, 4].getD i 0

def wDistLine : ℕ → ℕ → ℚ := fun i j => |wXCoord i - wXCoord j|

def wKeyDist : ℕ → ℕ → ℚ := fun _ j => (([0, 0, 1, 7, 0, 1].getD j 0 : ℚ))

def wClusterOut : MVState ℚ × RoutesDict ℚ :=
  (cluster_first_assignment wState).toOption.getD (wState, ⟨[], 0, [], 0⟩)

def wOptState : MVState ℚ := ⟨[wStopA, wStopB], wDistZero, [⟨3, "x", 9, 4, [1], 0⟩], [], 0⟩

def wOptOut : MVState ℚ × RoutesDict ℚ :=
  (optimize_routes wOptState "two_opt").toOption.getD (wOptState, ⟨[], 0, [], 0⟩)

end Fixtures

section Claims

open MultiVehicleOptimizer

/-- C1: after `greedy_assignment`, and after `cluster_first_assignment`
whenever it completes, every vehicle satisfies the capacity invariant: its
`current_load` equals the summed demand of its assigned stops and does not
exceed its `capacity` (capacities are nonnegative per the fleet
configuration contract). -/
theorem c1_capacity_invariant {α : Type} [LinearOrderedField α] (st : MVState α)
    (hcap : ∀ v ∈ st.vehicles, 0 ≤ v.capacity) :
    (∀ v ∈ (greedy_assignment st).1.vehicles, loadInv st.stops v) ∧
      ∀ out, cluster_first_assignment st = .ok out →
        ∀ v ∈ out.1.vehicles, loadInv st.stops v :=
  ⟨greedy_loadInv st hcap, fun out hout => cluster_loadInv st hcap out hout⟩

/-- Witness for C1 at a concrete fleet: one vehicle of capacity 10, two stops
of demand 4 each. -/
theorem c1_witness :
    loadInv wState.stops (((greedy_assignment wState).1.vehicles).getD 0 default) ∧
      loadInv wState.stops ((wClusterOut.1.vehicles).getD 0 default) := by
  constructor
  · exact (c1_capacity_invariant wState (by decide)).1 _
      (getD_mem _ 0 default (by decide))
  · exact (c1_capacity_invariant wState (by decide)).2 wClusterOut rfl _
      (getD_mem _ 0 default (by decide))

/-- C2 counterexample: on one stop and zero vehicles,
`cluster_first_assignment` raises IndexError (at `clusters[best_cluster]`),
so the stop ends up neither in a vehicle's routes nor in `unassigned_stops` —
the claim fails for this input. -/
theorem c2_counterexample :
    cluster_first_assignment wStateOneStop = Except.error "IndexError" := rfl

/-- C2 (amended): every input stop index ends up in exactly one vehicle's
routes list or in `unassigned_stops` — never both, never omitted, never
duplicated — after `greedy_assignment` on any input, and after
`cluster_first_assignment` whenever it completes normally (it raises
IndexError when there are stops but no vehicles). -/
theorem c2_assignment_partition {α : Type} [LinearOrderedField α] (st : MVState α)
    (x : ℕ) (hx : x < st.stops.length) :
    assignedCount (greedy_assignment st).1.vehicles
        (greedy_assignment st).1.unassigned_stops x = 1 ∧
      ∀ out, cluster_first_assignment st = .ok out →
        assignedCount out.1.vehicles out.1.unassigned_stops x = 1 :=
  ⟨greedy_partition st x hx, fun out hout => cluster_partition st x hx out hout⟩

/-- Witness for C2 at a concrete input: stop index 0 appears exactly once
after each assignment method. -/
theorem c2_witness :
    assignedCount (greedy_assignment wState).1.vehicles
        (greedy_assignment wState).1.unassigned_stops 0 = 1 ∧
      assignedCount wClusterOut.1.vehicles wClusterOut.1.unassigned_stops 0 = 1 := by
  constructor
  · exact (c2_assignment_partition wState 0 (by decide)).1
  · exact (c2_assignment_partition wState 0 (by decide)).2 wClusterOut rfl

/-- C3: over any symmetric distance matrix, the tour returned by 2-opt
(`_two_opt_route`, and `RouteOptimizer.two_opt` on a supplied tour) has
closed-loop distance no greater than the input tour's; the returned distance
is the distance of the returned tour. -/
theorem c3_two_opt_monotone {α : Type} [LinearOrderedField α] (st : ROState α)
    (hsym : ∀ i j, st.dist i j = st.dist j i) (r : List ℕ) (h2 : 2 ≤ r.length)
    (fuel : ℕ) :
    route_distance st.dist (two_opt_route st.dist r) ≤ route_distance st.dist r ∧
      ∀ r2 d, RouteOptimizer.two_opt st (some r) fuel = .ok (r2, d) →
        route_distance st.dist r2 ≤ route_distance st.dist r ∧
          d = route_distance st.dist r2 := by
  refine ⟨twoOptLoop_le st.dist hsym 100 r, ?_⟩
  intro r2 d hok
  rw [RouteOptimizer.two_opt_some st r fuel
    (List.ne_nil_of_length_pos (by omega))] at hok
  injection Except.ok.inj hok with hr2 hd
  subst hr2
  subst hd
  exact ⟨twoOptLoop_le st.dist hsym fuel r, rfl⟩

/-- Witness for C3: five stops on a line (the symmetric matrix of absolute
coordinate differences); 2-opt does not increase the closed-loop distance of
the identity tour. -/
theorem c3_witness :
    route_distance wDistLine (two_opt_route wDistLine [0, 1, 2, 3, 4]) ≤
      route_distance wDistLine [0, 1, 2, 3, 4] :=
  (c3_two_opt_monotone ⟨[], wDistLine, none, none⟩ (fun i j => abs_sub_comm _ _)
    [0, 1, 2, 3, 4] (by decide) 1000).1

/-- C4 counterexample: a stop on the equator (latitude 0.0) has perfectly
valid coordinates, but the truthiness guard of `distance_to` treats the zero
coordinate as missing and returns `float('inf')` instead of 0 for the
distance to itself. -/
theorem c4_counterexample :
    distance_to ⟨8, 0, 50, "Equator stop", 1⟩ ⟨8, 0, 50, "Equator stop", 1⟩ ≠ some 0 := by
  unfold distance_to
  rw [if_pos (Or.inl rfl)]
  simp

/-- C4 (amended): `distance_to` is symmetric on all stop pairs, and
`distance_to a a = 0` for every stop whose coordinates are nonzero (a zero
coordinate trips the truthiness guard and yields `float('inf')`); every
matrix built by `_calculate_distance_matrix` is symmetric with zero
diagonal. -/
theorem c4_haversine_symmetry :
    (∀ a b : Stop, distance_to a b = distance_to b a) ∧
      (∀ a : Stop, a.latitude ≠ 0 → a.longitude ≠ 0 → distance_to a a = some 0) ∧
      (∀ (stops : List Stop) (i j : ℕ),
        calculate_distance_matrix stops i j = calculate_distance_matrix stops j i) ∧
      ∀ (stops : List Stop) (i : ℕ), calculate_distance_matrix stops i i = some 0 :=
  ⟨distance_to_comm, distance_to_self, calculate_distance_matrix_symm,
    calculate_distance_matrix_diag⟩

/-- Witness for C4 at a stop with nonzero coordinates. -/
theorem c4_witness :
    distance_to ⟨9, 10, 20, "Rua D", 1⟩ ⟨9, 10, 20, "Rua D", 1⟩ = some 0 :=
  c4_haversine_symmetry.2.1 ⟨9, 10, 20, "Rua D", 1⟩ (by norm_num) (by norm_num)

/-- C5 counterexample: two empty vehicles listed as [id 5, id 1] and one stop
of demand 1.  The claim's tie-break ("lowest vehicle id") would assign the
stop to vehicle id 1, but Python's `min` keeps the first minimal element, so
the stop goes to vehicle id 5 (the earlier list position) and vehicle id 1
stays empty. -/
theorem c5_counterexample :
    (greedy_assignment wStateTie).1.vehicles.map (fun v => (v.id, v.routes)) =
      [(5, [0]), (1, [])] := by decide

/-- C5 (amended): `greedy_assignment` processes stops sorted by demand
descending with ties broken by original stop index ascending, and assigns
each stop, among the vehicles whose load plus the stop's demand does not
exceed capacity, to the vehicle with the smallest current load, with ties
broken by the earliest position in the vehicles list (not by the lowest
vehicle id). -/
theorem c5_greedy_characterization {α : Type} [LinearOrderedField α] :
    (∀ stops : List Stop, (sortedStops stops).Perm stops.enum ∧
      (sortedStops stops).Pairwise (fun a b => b.2.packages < a.2.packages ∨
        (a.2.packages = b.2.packages ∧ a.1 < b.1))) ∧
    ∀ (vs : List (Vehicle α)) (p : Int),
      (findChosen vs p = none ↔ ∀ jw ∈ vs.enum, jw.2.can_accept p = false) ∧
      ∀ k, findChosen vs p = some k →
        k < vs.length ∧ (vs.getD k default).can_accept p = true ∧
        (∀ jw ∈ vs.enum, jw.2.can_accept p = true →
          (vs.getD k default).current_load ≤ jw.2.current_load) ∧
        (∀ jw ∈ vs.enum, jw.2.can_accept p = true → jw.1 < k →
          (vs.getD k default).current_load < jw.2.current_load) := by
  constructor
  · intro stops
    refine ⟨List.perm_insertionSort demandOrder stops.enum, ?_⟩
    have hsorted : (sortedStops stops).Pairwise demandOrder :=
      List.sorted_insertionSort demandOrder stops.enum
    have hp : ((sortedStops stops).map Prod.fst).Perm (List.range stops.length) := by
      rw [← List.enum_map_fst stops]
      exact (List.perm_insertionSort demandOrder stops.enum).map Prod.fst
    have hnd : ((sortedStops stops).map Prod.fst).Pairwise (· ≠ ·) :=
      hp.nodup_iff.mpr (List.nodup_range _)
    have hne : (sortedStops stops).Pairwise (fun a b => a.1 ≠ b.1) :=
      List.pairwise_map.mp hnd
    refine (hsorted.and hne).imp ?_
    rintro a b ⟨hord, hneq⟩
    rcases hord with h | ⟨he, hle⟩
    · exact Or.inl h
    · exact Or.inr ⟨he, lt_of_le_of_ne hle hneq⟩
  · intro vs p
    exact ⟨findChosen_none vs p, fun k hk => findChosen_spec vs p k hk⟩

/-- Witness for C5: the processing order on a concrete stop list, and the
chosen vehicle on a concrete fleet. -/
theorem c5_witness :
    (sortedStops [wStopA, wStopB]).Perm ([wStopA, wStopB].enum) ∧
      ([wVehicle5, wVehicle1].getD 0 default).can_accept 1 = true := by
  refine ⟨((c5_greedy_characterization (α := ℚ)).1 [wStopA, wStopB]).1, ?_⟩
  exact (((c5_greedy_characterization (α := ℚ)).2 [wVehicle5, wVehicle1] 1).2
    0 (by decide)).2.1

/-- C6: the selection step of nearest neighbour (`min(unvisited, key=...)`,
with the unvisited set of small ints iterated in ascending order) always
returns a stop, and that stop is at minimal distance from the current stop
and has the smallest index among all minimal unvisited stops.  The embedding
is a pure function, so determinism holds by construction. -/
theorem c6_nearest_neighbor_tie {α : Type} [LinearOrderedAddCommMonoid α]
    (D : ℕ → ℕ → α) (cur : ℕ) (l : List ℕ) (hne : l ≠ []) (hs : l.Sorted (· ≤ ·)) :
    (selectNearest D cur l).isSome = true ∧
      ∀ k, selectNearest D cur l = some k →
        k ∈ l ∧ (∀ j ∈ l, D cur k ≤ D cur j) ∧ ∀ j ∈ l, D cur j = D cur k → k ≤ j := by
  rcases l with _ | ⟨a, rest⟩
  · exact absurd rfl hne
  refine ⟨rfl, ?_⟩
  intro k hk
  have hkm : k = pyMin (fun x => D cur x) a rest :=
    (Option.some.inj hk).symm
  subst hkm
  refine ⟨pyMin_mem _ rest a, pyMin_le _ rest a, ?_⟩
  intro j hj htie
  obtain ⟨l1, l2, h1, h2⟩ := pyMin_first (fun x => D cur x) rest a
  have hjm : j ∈ l1 ++ pyMin (fun x => D cur x) a rest :: l2 := by
    rw [← h1]; exact hj
  rcases List.mem_append.mp hjm with hj1 | hj2
  · exact absurd htie (ne_of_gt (h2 j hj1))
  have hsuffix : (pyMin (fun x => D cur x) a rest :: l2).Sublist (a :: rest) := by
    rw [h1]
    exact (List.suffix_append l1 _).sublist
  have hpw : (pyMin (fun x => D cur x) a rest :: l2).Pairwise (· ≤ ·) :=
    List.Pairwise.sublist hsuffix hs
  rcases List.mem_cons.mp hj2 with hj3 | hj3
  · rw [hj3]
  · exact (List.pairwise_cons.mp hpw).1 j hj3

/-- Witness for C6: distances with a tie between stops 2 and 5; the selection
picks stop 2, the smaller index. -/
theorem c6_witness :
    (2 : ℕ) ∈ [2, 3, 5] ∧ wKeyDist 0 2 ≤ wKeyDist 0 3 ∧ (2 : ℕ) ≤ 5 := by
  have h := (c6_nearest_neighbor_tie wKeyDist 0 [2, 3, 5] (by simp) (by decide)).2
    2 (by decide)
  exact ⟨h.1, h.2.1 3 (by decide), h.2.2 5 (by decide) (by decide)⟩

/-- C7 counterexample: `MultiVehicleOptimizer.optimize_routes` does not
reject an unrecognized method name — it returns the routes dict normally
(the claim says the call is rejected before any mutation). -/
theorem c7_counterexample :
    optimize_routes wState "bogus" = .ok (get_routes_dict wState) := rfl

/-- C7 (amended): `RouteOptimizer.optimize` rejects an unknown sequencing
method with ValueError before any state mutation, returning the state
unchanged; `MultiVehicleOptimizer.optimize_routes`, however, silently accepts
an unknown method: it returns normally with every vehicle's route list left
unchanged (the routes dict is still rebuilt as always). -/
theorem c7_unknown_method {α : Type} [LinearOrderedField α] (st : ROState α)
    (g : List ℕ × α) (m : String) (h1 : m ≠ "nearest_neighbor")
    (h2 : m ≠ "two_opt") (h3 : m ≠ "genetic") (st2 : MVState α) (m2 : String)
    (h4 : m2 ≠ "two_opt") (h5 : m2 ≠ "nearest_neighbor") :
    RouteOptimizer.optimize st m g = (.error ("Método desconhecido: " ++ m), st) ∧
      optimize_routes st2 m2 = .ok (get_routes_dict st2) ∧
      ∀ out, optimize_routes st2 m2 = .ok out →
        out.1.vehicles.map (fun v => v.routes) = st2.vehicles.map (fun v => v.routes) :=
  ⟨RouteOptimizer.optimize_unknown st g m h1 h2 h3,
    (optimize_routes_unknown st2 m2 h4 h5).1,
    (optimize_routes_unknown st2 m2 h4 h5).2⟩

/-- Witness for C7 at concrete unknown method names. -/
theorem c7_witness :
    RouteOptimizer.optimize wROState "bogus" ([], 0) =
        (.error ("Método desconhecido: " ++ "bogus"), wROState) ∧
      optimize_routes wState "simulated_annealing" = .ok (get_routes_dict wState) := by
  have h := c7_unknown_method wROState ([], 0) "bogus" (by decide) (by decide)
    (by decide) wState "simulated_annealing" (by decide) (by decide)
  exact ⟨h.1, h.2.1⟩

/-- C8 counterexample: with two stops and zero vehicles,
`cluster_first_assignment` raises IndexError instead of returning the trivial
all-unassigned result the claim describes. -/
theorem c8_counterexample :
    cluster_first_assignment wStateNoVehicles = Except.error "IndexError" := rfl

/-- C8 (amended): with zero stops, both assignment methods return a trivial
result (total distance 0, empty unassigned list); with stops but zero
vehicles, `greedy_assignment` returns total distance 0 with every stop index
unassigned, but `cluster_first_assignment` raises IndexError. -/
theorem c8_trivial_inputs {α : Type} [LinearOrderedField α] (st : MVState α) :
    (st.stops = [] →
      (greedy_assignment st).2.total_distance = 0 ∧
      (greedy_assignment st).2.unassigned_stops = [] ∧
      ∃ out, cluster_first_assignment st = .ok out ∧
        out.2.total_distance = 0 ∧ out.2.unassigned_stops = []) ∧
    (st.vehicles = [] → st.stops ≠ [] →
      (greedy_assignment st).2.total_distance = 0 ∧
      (greedy_assignment st).2.unassigned_stops.Perm (List.range st.stops.length) ∧
      cluster_first_assignment st = .error "IndexError") := by
  constructor
  · intro hs
    obtain ⟨h1, h2⟩ := greedy_nil_stops st hs
    exact ⟨h1, h2, cluster_first_nil_stops st hs⟩
  · intro hv hs
    obtain ⟨h1, h2⟩ := greedy_nil_vehicles st hv
    exact ⟨h1, h2, cluster_first_no_vehicles st hv hs⟩

/-- Witness for C8: a fleet with no stops, and two stops with no vehicles. -/
theorem c8_witness :
    (greedy_assignment wStateNoStops).2.total_distance = 0 ∧
      (greedy_assignment wStateNoVehicles).2.unassigned_stops.Perm
        (List.range wStateNoVehicles.stops.length) := by
  have ha := (c8_trivial_inputs wStateNoStops).1 rfl
  have hb := (c8_trivial_inputs wStateNoVehicles).2 rfl (List.cons_ne_nil _ _)
  exact ⟨ha.1, hb.2.1⟩

/-- C9 counterexample: `RouteOptimizer.two_opt` on an explicitly supplied
empty tour does not return the tour unchanged — `_route_distance` raises
IndexError on `route[-1]`. -/
theorem c9_counterexample :
    RouteOptimizer.two_opt wROState (some []) 1000 = .error "IndexError" :=
  RouteOptimizer.two_opt_nil wROState 1000

/-- C9 (amended): `_two_opt_route` returns every tour of fewer than 2 stops
unchanged; `RouteOptimizer.two_opt` returns a one-stop tour unchanged with
distance 0 (but raises IndexError on an empty tour); `optimize_routes` skips
every vehicle with fewer than 2 assigned stops, leaving its route unchanged
with stored route distance 0 (over a matrix with zero diagonal). -/
theorem c9_degenerate_tours {α : Type} [LinearOrderedField α] (D : ℕ → ℕ → α)
    (st : ROState α) (st2 : MVState α) (method : String) (x : ℕ) (maxIter : ℕ)
    (hdiag : ∀ i, st.dist i i = 0) (hdiag2 : ∀ i, st2.dist i i = 0) :
    (∀ r : List ℕ, r.length < 2 → two_opt_route D r = r) ∧
      RouteOptimizer.two_opt st (some [x]) maxIter = .ok ([x], 0) ∧
      ∀ out, optimize_routes st2 method = .ok out →
        ∀ k, k < st2.vehicles.length →
          (st2.vehicles.getD k default).routes.length < 2 →
          (out.1.vehicles.getD k default).routes =
              (st2.vehicles.getD k default).routes ∧
            (out.1.vehicles.getD k default).total_distance = 0 :=
  ⟨fun r hr => two_opt_route_short D r hr,
    RouteOptimizer.two_opt_single st x maxIter hdiag,
    fun out hout k hk hshort =>
      optimize_routes_short st2 method hdiag2 out hout k hk hshort⟩

/-- Witness for C9 at concrete degenerate tours. -/
theorem c9_witness :
    two_opt_route wDistZero [4] = [4] ∧
      RouteOptimizer.two_opt wROState (some [6]) 1000 = .ok ([6], 0) ∧
      (wOptOut.1.vehicles.getD 0 default).routes = [1] := by
  have h := c9_degenerate_tours wDistZero wROState wOptState "two_opt" 6 1000
    (fun i => rfl) (fun i => rfl)
  refine ⟨h.1 [4] (by decide), h.2.1, ?_⟩
  exact (h.2.2 wOptOut rfl 0 (by decide) (by decide)).1

/-- C10: `Vehicle.add_stop` succeeds (returns True, appends the stop index,
adds the packages to the load) exactly when the load plus the packages fits
the capacity; otherwise it returns False and leaves the vehicle entirely
unchanged. -/
theorem c10_add_stop {α : Type} [LinearOrderedField α] (v : Vehicle α) (i : ℕ)
    (p : Int) :
    ((v.add_stop i p).1 = true ↔ v.current_load + p ≤ v.capacity) ∧
      (v.current_load + p ≤ v.capacity →
        (v.add_stop i p).2 =
          { v with routes := v.routes ++ [i], current_load := v.current_load + p }) ∧
      (¬v.current_load + p ≤ v.capacity → (v.add_stop i p).2 = v) := by
  refine ⟨⟨?_, ?_⟩, ?_, ?_⟩
  · intro h
    by_contra hc
    rw [add_stop_of_reject v i p hc] at h
    simp at h
  · intro h
    rw [add_stop_of_accept v i p h]
  · intro h
    rw [add_stop_of_accept v i p h]
  · intro h
    rw [add_stop_of_reject v i p h]

/-- Witness for C10: an accepted and a rejected `add_stop` on a concrete
vehicle of capacity 10. -/
theorem c10_witness :
    (wVehicle.add_stop 3 4).2 =
        { wVehicle with routes := [3], current_load := 4 } ∧
      (wVehicle.add_stop 3 99).2 = wVehicle := by
  constructor
  · have h := (c10_add_stop wVehicle 3 4).2.1 (by decide)
    rw [h]
    rfl
  · exact (c10_add_stop wVehicle 3 99).2.2 (by decide)

end Claims

end DeliveryDashboard
